import Mathlib

/-!
Shallow embedding of the data-reconciliation and classification pipeline of
the report-generation application (services/fileProcessor.ts and App.tsx):
text normalizer, header locator, column resolver, main-roster aggregator,
ratio merger, record classifier, conclusion presentation, rebuilt-sheet
writer and the direct-read path, together with theorems settling the
specification claims about them.

Modelling conventions:
* JavaScript numbers are exact rationals plus the two infinities (JsNum);
  NaN is represented by Option.none at every point where it can arise.
* A spreadsheet cell is a string, a number or null; undefined (out-of-range
  access) behaves like null in every guarded use of the source, so both are
  the cnull constructor.
* Unicode NFD decomposition is tabulated for the Vietnamese characters the
  application works with; ASCII characters are NFD-invariant, and the
  normalizer strips every combining mark and every non-alphanumeric
  character afterwards.
-/

namespace BaoCao

/-- JavaScript numbers: finite values are exact rationals, the two infinities
are explicit; NaN is Option.none wherever it can occur. -/
inductive JsNum where
  | fin (q : ℚ)
  | inf (pos : Bool)
deriving DecidableEq

/-- A spreadsheet cell as produced by the tabular reader: a string, a number,
or null (undefined from out-of-range access behaves like null in every
guarded use of the source, so both are cnull). -/
inductive Cell where
  | cs (s : String)
  | cn (v : JsNum)
  | cnull
deriving DecidableEq

/-- A grid: rows of cells, as returned by readFileAsArray. -/
abbrev Grid := List (List Cell)

/-- JavaScript whitespace characters relevant to trim and parseFloat. -/
def wsChar (c : Char) : Bool :=
  c == ' ' || c == '\t' || c == '\n' || c == '\r' || c == '\x0b' || c == '\x0c'

/-- JavaScript String.prototype.trim. -/
def jsTrim (s : String) : String :=
  String.mk (((s.data.dropWhile wsChar).reverse.dropWhile wsChar).reverse)

/-- Substring search on character lists (JavaScript String.prototype.includes). -/
def hasSubList (pat : List Char) : List Char → Bool
  | [] => pat.isEmpty
  | c :: rest => pat.isPrefixOf (c :: rest) || hasSubList pat rest

/-- JavaScript s.includes(pat). -/
def containsStr (s pat : String) : Bool := hasSubList pat.data s.data

/-- The decimal digit character for d (0 ≤ d ≤ 9). -/
def digChar (d : Nat) : Char := Char.ofNat (48 + d)

/-- Decimal digit characters of a natural number, most significant first. -/
def natChars (n : Nat) : List Char :=
  if n < 10 then [digChar n]
  else natChars (n / 10) ++ [digChar (n % 10)]
termination_by n
decreasing_by
  simp_wf
  exact Nat.div_lt_self (by omega) (by omega)

/-- Decimal string of a natural number. -/
def natStr (n : Nat) : String := String.mk (natChars n)

/-- Fractional decimal digits of a rational in [0, 1), up to the given fuel
(terminating decimals are printed exactly; JavaScript numbers that flow
through this pipeline are such decimals). -/
def fracChars (fuel : Nat) (r : ℚ) : List Char :=
  match fuel with
  | 0 => []
  | fuel + 1 =>
      if r = 0 then []
      else
        let d := (Rat.floor (r * 10)).toNat
        digChar d :: fracChars fuel (r * 10 - Rat.floor (r * 10))

/-- Decimal string of a nonnegative rational. -/
def ratToStringNN (q : ℚ) : String :=
  let ip := (Rat.floor q).toNat
  let fd := fracChars 64 (q - Rat.floor q)
  if fd.isEmpty then natStr ip else natStr ip ++ "." ++ String.mk fd

/-- Decimal string of a rational (the JavaScript String() conversion of a
finite number, restricted to the terminating decimals the pipeline uses). -/
def ratToString (q : ℚ) : String :=
  if q < 0 then "-" ++ ratToStringNN (-q) else ratToStringNN q

/-- JavaScript String() applied to a number. -/
def jsNumToString (v : JsNum) : String :=
  match v with
  | .fin q => ratToString q
  | .inf true => "Infinity"
  | .inf false => "-Infinity"

/-- JavaScript String() applied to a cell value. -/
def cellStr (c : Cell) : String :=
  match c with
  | .cs s => s
  | .cn v => jsNumToString v
  | .cnull => "null"

/-- JavaScript truthiness of a cell value. -/
def jsTruthy (c : Cell) : Bool :=
  match c with
  | .cs s => if s = "" then false else true
  | .cn (.fin q) => if q = 0 then false else true
  | .cn (.inf _) => true
  | .cnull => false

/-- JavaScript String(x || ''): the string form of a truthy value, otherwise
the empty string. -/
def jsOrEmptyStr (c : Cell) : String := if jsTruthy c then cellStr c else ""

/-- Combining diacritical marks U+0300 to U+036F, stripped by the normalizer. -/
def combining (c : Char) : Bool := decide (768 ≤ c.toNat ∧ c.toNat ≤ 879)

def mGrave : Char := Char.ofNat 0x300
def mAcute : Char := Char.ofNat 0x301
def mCirc : Char := Char.ofNat 0x302
def mTilde : Char := Char.ofNat 0x303
def mBreve : Char := Char.ofNat 0x306
def mHook : Char := Char.ofNat 0x309
def mHorn : Char := Char.ofNat 0x31B
def mDotB : Char := Char.ofNat 0x323

/-- Canonical (NFD) decompositions of the precomposed Vietnamese characters
the application works with. The letters đ and Đ have no decomposition and
are deliberately absent (the source handles đ by explicit replacement). -/
def nfdTable : List (Char × List Char) := [
  ('à', ['a', mGrave]), ('á', ['a', mAcute]), ('ả', ['a', mHook]),
  ('ã', ['a', mTilde]), ('ạ', ['a', mDotB]),
  ('â', ['a', mCirc]), ('ầ', ['a', mCirc, mGrave]), ('ấ', ['a', mCirc, mAcute]),
  ('ẩ', ['a', mCirc, mHook]), ('ẫ', ['a', mCirc, mTilde]), ('ậ', ['a', mDotB, mCirc]),
  ('ă', ['a', mBreve]), ('ằ', ['a', mBreve, mGrave]), ('ắ', ['a', mBreve, mAcute]),
  ('ẳ', ['a', mBreve, mHook]), ('ẵ', ['a', mBreve, mTilde]), ('ặ', ['a', mDotB, mBreve]),
  ('è', ['e', mGrave]), ('é', ['e', mAcute]), ('ẻ', ['e', mHook]),
  ('ẽ', ['e', mTilde]), ('ẹ', ['e', mDotB]),
  ('ê', ['e', mCirc]), ('ề', ['e', mCirc, mGrave]), ('ế', ['e', mCirc, mAcute]),
  ('ể', ['e', mCirc, mHook]), ('ễ', ['e', mCirc, mTilde]), ('ệ', ['e', mDotB, mCirc]),
  ('ì', ['i', mGrave]), ('í', ['i', mAcute]), ('ỉ', ['i', mHook]),
  ('ĩ', ['i', mTilde]), ('ị', ['i', mDotB]),
  ('ò', ['o', mGrave]), ('ó', ['o', mAcute]), ('ỏ', ['o', mHook]),
  ('õ', ['o', mTilde]), ('ọ', ['o', mDotB]),
  ('ô', ['o', mCirc]), ('ồ', ['o', mCirc, mGrave]), ('ố', ['o', mCirc, mAcute]),
  ('ổ', ['o', mCirc, mHook]), ('ỗ', ['o', mCirc, mTilde]), ('ộ', ['o', mDotB, mCirc]),
  ('ơ', ['o', mHorn]), ('ờ', ['o', mHorn, mGrave]), ('ớ', ['o', mHorn, mAcute]),
  ('ở', ['o', mHorn, mHook]), ('ỡ', ['o', mHorn, mTilde]), ('ợ', ['o', mHorn, mDotB]),
  ('ù', ['u', mGrave]), ('ú', ['u', mAcute]), ('ủ', ['u', mHook]),
  ('ũ', ['u', mTilde]), ('ụ', ['u', mDotB]),
  ('ư', ['u', mHorn]), ('ừ', ['u', mHorn, mGrave]), ('ứ', ['u', mHorn, mAcute]),
  ('ử', ['u', mHorn, mHook]), ('ữ', ['u', mHorn, mTilde]), ('ự', ['u', mHorn, mDotB]),
  ('ỳ', ['y', mGrave]), ('ý', ['y', mAcute]), ('ỷ', ['y', mHook]),
  ('ỹ', ['y', mTilde]), ('ỵ', ['y', mDotB]),
  ('À', ['A', mGrave]), ('Á', ['A', mAcute]), ('Ả', ['A', mHook]),
  ('Ã', ['A', mTilde]), ('Ạ', ['A', mDotB]),
  ('Â', ['A', mCirc]), ('Ầ', ['A', mCirc, mGrave]), ('Ấ', ['A', mCirc, mAcute]),
  ('Ẩ', ['A', mCirc, mHook]), ('Ẫ', ['A', mCirc, mTilde]), ('Ậ', ['A', mDotB, mCirc]),
  ('Ă', ['A', mBreve]), ('Ằ', ['A', mBreve, mGrave]), ('Ắ', ['A', mBreve, mAcute]),
  ('Ẳ', ['A', mBreve, mHook]), ('Ẵ', ['A', mBreve, mTilde]), ('Ặ', ['A', mDotB, mBreve]),
  ('È', ['E', mGrave]), ('É', ['E', mAcute]), ('Ẻ', ['E', mHook]),
  ('Ẽ', ['E', mTilde]), ('Ẹ', ['E', mDotB]),
  ('Ê', ['E', mCirc]), ('Ề', ['E', mCirc, mGrave]), ('Ế', ['E', mCirc, mAcute]),
  ('Ể', ['E', mCirc, mHook]), ('Ễ', ['E', mCirc, mTilde]), ('Ệ', ['E', mDotB, mCirc]),
  ('Ì', ['I', mGrave]), ('Í', ['I', mAcute]), ('Ỉ', ['I', mHook]),
  ('Ĩ', ['I', mTilde]), ('Ị', ['I', mDotB]),
  ('Ò', ['O', mGrave]), ('Ó', ['O', mAcute]), ('Ỏ', ['O', mHook]),
  ('Õ', ['O', mTilde]), ('Ọ', ['O', mDotB]),
  ('Ô', ['O', mCirc]), ('Ồ', ['O', mCirc, mGrave]), ('Ố', ['O', mCirc, mAcute]),
  ('Ổ', ['O', mCirc, mHook]), ('Ỗ', ['O', mCirc, mTilde]), ('Ộ', ['O', mDotB, mCirc]),
  ('Ơ', ['O', mHorn]), ('Ờ', ['O', mHorn, mGrave]), ('Ớ', ['O', mHorn, mAcute]),
  ('Ở', ['O', mHorn, mHook]), ('Ỡ', ['O', mHorn, mTilde]), ('Ợ', ['O', mHorn, mDotB]),
  ('Ù', ['U', mGrave]), ('Ú', ['U', mAcute]), ('Ủ', ['U', mHook]),
  ('Ũ', ['U', mTilde]), ('Ụ', ['U', mDotB]),
  ('Ư', ['U', mHorn]), ('Ừ', ['U', mHorn, mGrave]), ('Ứ', ['U', mHorn, mAcute]),
  ('Ử', ['U', mHorn, mHook]), ('Ữ', ['U', mHorn, mTilde]), ('Ự', ['U', mHorn, mDotB]),
  ('Ỳ', ['Y', mGrave]), ('Ý', ['Y', mAcute]), ('Ỷ', ['Y', mHook]),
  ('Ỹ', ['Y', mTilde]), ('Ỵ', ['Y', mDotB])]

/-- NFD decomposition of one character: ASCII is invariant, the Vietnamese
precomposed characters decompose per the table, everything else is left
alone (its marks would be stripped next anyway). -/
def nfdChar (c : Char) : List Char :=
  if c.toNat < 128 then [c] else (nfdTable.lookup c).getD [c]

/-- JavaScript toLowerCase restricted to the characters that survive NFD in
this pipeline: ASCII letters and the undecomposable Đ. -/
def jsLowerChar (c : Char) : Char :=
  if c = 'Đ' then 'đ'
  else if 65 ≤ c.toNat ∧ c.toNat ≤ 90 then Char.ofNat (c.toNat + 32)
  else c

/-- Lowercase ASCII letter or digit, the only characters the normalizer keeps. -/
def isLowAlnum (c : Char) : Bool :=
  decide ((97 ≤ c.toNat ∧ c.toNat ≤ 122) ∨ (48 ≤ c.toNat ∧ c.toNat ≤ 57))

/-- The replace of đ by d performed after lowercasing. -/
def dRepl (c : Char) : Char := if c = 'đ' then 'd' else c

/-- The character pipeline of normalizeString: NFD, strip combining marks,
lowercase, đ to d, keep only lowercase alphanumerics. -/
def normalizeChars (l : List Char) : List Char :=
  (((((l.map nfdChar).flatten).filter (fun c => !(combining c))).map jsLowerChar).map
      dRepl).filter isLowAlnum

/-- normalizeString from services/fileProcessor.ts, on string input (the
typeof-guard for non-string input is cellNormalize below). -/
def normalizeString (s : String) : String :=
  if s = "" then "" else String.mk (normalizeChars s.data)

/-- normalizeString applied to an arbitrary cell value: non-string input
(numbers, null) yields the empty string via the typeof guard. -/
def cellNormalize (c : Cell) : String :=
  match c with
  | .cs s => normalizeString s
  | _ => ""

/-- The two document kinds of the application (ĐATN/KLTN vs BCCĐ). -/
inductive ProjectType where
  | datn
  | bccd
deriving DecidableEq

/-- The four mutually exclusive conclusion categories of the dashboard. -/
inductive ConclusionCategory where
  | withinLimit
  | l1Edit
  | l2Process
  | l2Exceeded
deriving DecidableEq

/-- getConclusionCategory from App.tsx: the two-tier threshold classifier. -/
def getConclusionCategory (tv : ℚ) (projectType : ProjectType)
    (isFirstCheck : Bool) : ConclusionCategory :=
  match projectType with
  | .datn =>
      if tv < 25 then .withinLimit
      else if 25 ≤ tv ∧ tv ≤ 35 then
        (if isFirstCheck then .l1Edit else .l2Process)
      else (if isFirstCheck then .l1Edit else .l2Exceeded)
  | .bccd =>
      if tv < 30 then .withinLimit
      else if 30 ≤ tv ∧ tv ≤ 40 then
        (if isFirstCheck then .l1Edit else .l2Process)
      else (if isFirstCheck then .l1Edit else .l2Exceeded)

/-- The checkbox and conclusion-sentence fields bound into the template. -/
structure Conclusions where
  kl1_box : String
  kl2_box : String
  kl3_box : String
  kl4_box : String
  ketluan1 : String
  ketluan2 : String
  ketluan3 : String
  ketluan4 : String
deriving DecidableEq

def uncheckedBox : String := "☐"

def checkedBox : String := "☑"

/-- The fixed conclusion sentences and all-unchecked boxes of
getConclusionData before the category branch runs. -/
def conclusionsBase : Conclusions :=
  { kl1_box := uncheckedBox, kl2_box := uncheckedBox,
    kl3_box := uncheckedBox, kl4_box := uncheckedBox,
    ketluan1 := "Đảm bảo tỉ lệ cho phép, đề nghị Hội đồng đánh giá ĐATN / Cán bộ chấm thi BCCĐ đánh giá và kết luận.",
    ketluan2 := "Tỉ lệ trùng lặp trong khoảng cần xử lý (ĐATN: 25%-35%; BCCĐ: 30%-40%), đề nghị Hội đồng đánh giá ĐATN / Cán bộ chấm thi BCCĐ trừ điểm theo Quy định.",
    ketluan3 := "Vượt tỉ lệ, đề nghị học viên chỉnh sửa trong thời gian 03 ngày (ĐATN) / 02 ngày (BCCĐ) và nộp lại để kiểm tra lần tiếp theo.",
    ketluan4 := "Vượt tỉ lệ tối đa (ĐATN > 35%; BCCĐ > 40%): không được bảo vệ/không được chấm, điểm 0." }

/-- getConclusionData from services/fileProcessor.ts: checkbox and sentence
presentation of a classification (the trailing else keeps the source's
if/else-if chain shape; it is unreachable over the rationals). -/
def getConclusionData (tv : ℚ) (projectType : ProjectType)
    (isFirstCheck : Bool) : Conclusions :=
  match projectType with
  | .datn =>
      if tv < 25 then { conclusionsBase with kl1_box := checkedBox }
      else if 25 ≤ tv ∧ tv ≤ 35 then
        (if isFirstCheck then { conclusionsBase with kl3_box := checkedBox }
         else { conclusionsBase with kl2_box := checkedBox })
      else if 35 < tv then
        (if isFirstCheck then { conclusionsBase with kl3_box := checkedBox }
         else { conclusionsBase with kl4_box := checkedBox })
      else conclusionsBase
  | .bccd =>
      if tv < 30 then { conclusionsBase with kl1_box := checkedBox }
      else if 30 ≤ tv ∧ tv ≤ 40 then
        (if isFirstCheck then { conclusionsBase with kl3_box := checkedBox }
         else { conclusionsBase with kl2_box := checkedBox })
      else if 40 < tv then
        (if isFirstCheck then { conclusionsBase with kl3_box := checkedBox }
         else { conclusionsBase with kl4_box := checkedBox })
      else conclusionsBase

/-- The threshold table exactly as the specification states it (bands
inclusive on both ends of the middle band). -/
def classifySpecTable (tv : ℚ) (projectType : ProjectType)
    (isFirstCheck : Bool) : ConclusionCategory :=
  match projectType with
  | .datn =>
      if tv < 25 then .withinLimit
      else if tv ≤ 35 then (if isFirstCheck then .l1Edit else .l2Process)
      else (if isFirstCheck then .l1Edit else .l2Exceeded)
  | .bccd =>
      if tv < 30 then .withinLimit
      else if tv ≤ 40 then (if isFirstCheck then .l1Edit else .l2Process)
      else (if isFirstCheck then .l1Edit else .l2Exceeded)

/-- The callers' (row.tv || 0) default: an absent similarity score is
classified as 0 (JavaScript 0 || 0 is also 0, so getD is exact). -/
def tvDefaultZero (tv : Option ℚ) : ℚ := tv.getD 0

/-- C1: over every finite tv, project type and first-check flag, the
classifier returns exactly the category of the threshold table, with both
band boundaries inclusive, and an absent tv is classified as 0, which lands
in WithinLimit. -/
theorem claim_C1_classifier_matches_threshold_table :
    (∀ (tv : ℚ) (pt : ProjectType) (fc : Bool),
        getConclusionCategory tv pt fc = classifySpecTable tv pt fc)
    ∧ (∀ (pt : ProjectType) (fc : Bool),
        getConclusionCategory (tvDefaultZero none) pt fc = .withinLimit)
    ∧ (getConclusionCategory 25 .datn true = .l1Edit
        ∧ getConclusionCategory 35 .datn false = .l2Process
        ∧ getConclusionCategory 30 .bccd false = .l2Process
        ∧ getConclusionCategory 40 .bccd false = .l2Process) := by
  refine ⟨?_, ?_, by decide⟩
  · intro tv pt fc
    cases pt
    · by_cases h1 : tv < 25
      · simp [getConclusionCategory, classifySpecTable, h1]
      · by_cases h2 : tv ≤ 35
        · have h25 : 25 ≤ tv := le_of_not_lt h1
          simp [getConclusionCategory, classifySpecTable, h1, h2, h25]
        · simp [getConclusionCategory, classifySpecTable, h1, h2]
    · by_cases h1 : tv < 30
      · simp [getConclusionCategory, classifySpecTable, h1]
      · by_cases h2 : tv ≤ 40
        · have h30 : 30 ≤ tv := le_of_not_lt h1
          simp [getConclusionCategory, classifySpecTable, h1, h2, h30]
        · simp [getConclusionCategory, classifySpecTable, h1, h2]
  · intro pt fc
    cases pt <;> simp [getConclusionCategory, tvDefaultZero]

/-- C3: for every finite tv, the presentation function checks exactly one of
the four checkbox slots, and the checked slot corresponds to the classifier
category (kl1 to WithinLimit, kl3 to L1Edit, kl2 to L2Process, kl4 to
L2Exceeded). -/
theorem claim_C3_presentation_matches_classifier :
    ∀ (tv : ℚ) (pt : ProjectType) (fc : Bool),
      (((getConclusionData tv pt fc).kl1_box = checkedBox) ↔
          getConclusionCategory tv pt fc = .withinLimit)
      ∧ (((getConclusionData tv pt fc).kl3_box = checkedBox) ↔
          getConclusionCategory tv pt fc = .l1Edit)
      ∧ (((getConclusionData tv pt fc).kl2_box = checkedBox) ↔
          getConclusionCategory tv pt fc = .l2Process)
      ∧ (((getConclusionData tv pt fc).kl4_box = checkedBox) ↔
          getConclusionCategory tv pt fc = .l2Exceeded)
      ∧ ((if (getConclusionData tv pt fc).kl1_box = checkedBox then 1 else 0)
          + (if (getConclusionData tv pt fc).kl2_box = checkedBox then 1 else 0)
          + (if (getConclusionData tv pt fc).kl3_box = checkedBox then 1 else 0)
          + (if (getConclusionData tv pt fc).kl4_box = checkedBox then 1 else 0)
          = (1 : Nat)) := by
  intro tv pt fc
  cases pt
  · by_cases h1 : tv < 25
    · simp only [getConclusionData, getConclusionCategory, if_pos h1]
      cases fc <;> decide
    · by_cases h2 : tv ≤ 35
      · have h25 : 25 ≤ tv := le_of_not_lt h1
        simp only [getConclusionData, getConclusionCategory, if_neg h1,
          if_pos (And.intro h25 h2)]
        cases fc <;> decide
      · have h35 : 35 < tv := lt_of_not_le h2
        have hband : ¬(25 ≤ tv ∧ tv ≤ 35) := fun h => h2 h.2
        simp only [getConclusionData, getConclusionCategory, if_neg h1,
          if_neg hband, if_pos h35]
        cases fc <;> decide
  · by_cases h1 : tv < 30
    · simp only [getConclusionData, getConclusionCategory, if_pos h1]
      cases fc <;> decide
    · by_cases h2 : tv ≤ 40
      · have h30 : 30 ≤ tv := le_of_not_lt h1
        simp only [getConclusionData, getConclusionCategory, if_neg h1,
          if_pos (And.intro h30 h2)]
        cases fc <;> decide
      · have h40 : 40 < tv := lt_of_not_le h2
        have hband : ¬(30 ≤ tv ∧ tv ≤ 40) := fun h => h2 h.2
        simp only [getConclusionData, getConclusionCategory, if_neg h1,
          if_neg hband, if_pos h40]
        cases fc <;> decide

/-- A character kept by the normalizer has no NFD decomposition. -/
lemma nfdChar_fixed {c : Char} (h : isLowAlnum c = true) : nfdChar c = [c] := by
  have hb := of_decide_eq_true h
  have hc : c.toNat < 128 := by rcases hb with h' | h' <;> omega
  simp [nfdChar, hc]

/-- A character kept by the normalizer is not a combining mark. -/
lemma combining_false {c : Char} (h : isLowAlnum c = true) :
    combining c = false := by
  have hb := of_decide_eq_true h
  apply decide_eq_false
  rcases hb with h' | h' <;> omega

/-- A character kept by the normalizer is already lowercase. -/
lemma jsLowerChar_fixed {c : Char} (h : isLowAlnum c = true) :
    jsLowerChar c = c := by
  have hb := of_decide_eq_true h
  by_cases hd : c = 'Đ'
  · subst hd; exact absurd h (by decide)
  · have hr : ¬(65 ≤ c.toNat ∧ c.toNat ≤ 90) := by rcases hb with h' | h' <;> omega
    simp [jsLowerChar, hd, hr]

/-- A character kept by the normalizer is not đ. -/
lemma dRepl_fixed {c : Char} (h : isLowAlnum c = true) : dRepl c = c := by
  by_cases hd : c = 'đ'
  · subst hd; exact absurd h (by decide)
  · simp [dRepl, hd]

/-- The normalizer fixes lists of lowercase alphanumerics. -/
lemma normalizeChars_fixed {l : List Char}
    (h : ∀ c ∈ l, isLowAlnum c = true) : normalizeChars l = l := by
  induction l with
  | nil => rfl
  | cons c t ih =>
      have hc := h c (by simp)
      have ht : ∀ x ∈ t, isLowAlnum x = true := fun x hx => h x (by simp [hx])
      have hstep : normalizeChars (c :: t) = c :: normalizeChars t := by
        unfold normalizeChars
        rw [List.map_cons, List.flatten_cons, nfdChar_fixed hc,
          List.singleton_append,
          List.filter_cons_of_pos (by simp [combining_false hc]),
          List.map_cons, jsLowerChar_fixed hc, List.map_cons, dRepl_fixed hc,
          List.filter_cons_of_pos hc]
      rw [hstep, ih ht]

/-- Every output character of the normalizer is a lowercase alphanumeric. -/
lemma mem_normalizeChars {c : Char} {l : List Char}
    (h : c ∈ normalizeChars l) : isLowAlnum c = true :=
  (List.mem_filter.mp h).2

/-- C7: the text normalizer is total and idempotent, non-string or empty
input yields the empty string, and accent/case/spacing variants of the same
logical name collide. -/
theorem claim_C7_normalizer_idempotent_total :
    (∀ s : String, normalizeString (normalizeString s) = normalizeString s)
    ∧ normalizeString "" = ""
    ∧ cellNormalize .cnull = ""
    ∧ cellNormalize (.cn (.fin 5)) = ""
    ∧ normalizeString "Đề Tài" = normalizeString "de tai"
    ∧ normalizeString "Đề Tài" = "detai" := by
  refine ⟨?_, rfl, rfl, rfl, by decide, by decide⟩
  intro s
  by_cases hs : s = ""
  · subst hs; rfl
  · have h1 : normalizeString s = String.mk (normalizeChars s.data) := by
      simp [normalizeString, hs]
    rw [h1]
    by_cases hl : normalizeChars s.data = []
    · rw [hl]; rfl
    · have hne : String.mk (normalizeChars s.data) ≠ "" := by
        intro hcon
        apply hl
        have : (String.mk (normalizeChars s.data)).data = ("" : String).data := by
          rw [hcon]
        simpa using this
      have h2 : normalizeString (String.mk (normalizeChars s.data)) =
          String.mk (normalizeChars (String.mk (normalizeChars s.data)).data) := by
        simp [normalizeString, hne]
      rw [h2]
      have h3 : (String.mk (normalizeChars s.data)).data = normalizeChars s.data := rfl
      rw [h3, normalizeChars_fixed (fun c hc => mem_normalizeChars hc)]

/-- Decimal digit character test. -/
def isDigitCh (c : Char) : Bool := decide (48 ≤ c.toNat ∧ c.toNat ≤ 57)

/-- Value of a list of decimal digit characters, most significant first. -/
def digitsVal (l : List Char) : Nat :=
  l.foldl (fun a c => a * 10 + (c.toNat - 48)) 0

/-- JavaScript parseFloat: skip leading whitespace, optional sign, then the
longest decimal literal (digits, optional fraction, optional exponent) or
the literal Infinity; none models NaN. Finite values are exact rationals. -/
def jsParseFloat (s : String) : Option JsNum :=
  let l := s.data.dropWhile wsChar
  let sgn := match l with
    | '-' :: t => (true, t)
    | '+' :: t => (false, t)
    | _ => (false, l)
  let neg := sgn.1
  let l1 := sgn.2
  if ("Infinity".data).isPrefixOf l1 then some (.inf (!neg))
  else
    let d1 := l1.takeWhile isDigitCh
    let l2 := l1.dropWhile isDigitCh
    let frac := match l2 with
      | '.' :: t => (t.takeWhile isDigitCh, t.dropWhile isDigitCh)
      | _ => ([], l2)
    let d2 := frac.1
    let l3 := frac.2
    if d1.isEmpty && d2.isEmpty then none
    else
      let mantNum : Int := ((digitsVal d1 * 10 ^ d2.length + digitsVal d2 : Nat) : Int)
      let signedNum : Int := if neg then -mantNum else mantNum
      let ex : Bool × Nat := match l3 with
        | c :: t =>
            if c = 'e' ∨ c = 'E' then
              let esgn := match t with
                | '-' :: t2 => (true, t2)
                | '+' :: t2 => (false, t2)
                | _ => (false, t)
              let ed := esgn.2.takeWhile isDigitCh
              if ed.isEmpty then (false, 0) else (esgn.1, digitsVal ed)
            else (false, 0)
        | [] => (false, 0)
      some (.fin (if ex.1 then mkRat signedNum (10 ^ d2.length * 10 ^ ex.2)
        else mkRat (signedNum * 10 ^ ex.2) (10 ^ d2.length)))

/-- JavaScript s.replace(<comma>, <dot>): only the first comma is replaced. -/
def replaceFirstComma : List Char → List Char
  | [] => []
  | c :: t => if c = ',' then '.' :: t else c :: replaceFirstComma t

/-- String form of the comma-tolerant replace used before parseFloat. -/
def commaToDot (s : String) : String := String.mk (replaceFirstComma s.data)

/-- Numeric reading of a cell, shared by the merger (typeof branches) and
the direct-read path (String() then parseFloat: for a number cell JavaScript
String followed by parseFloat returns the number itself, modelled as
identity). none models NaN/undefined. -/
def cellNum (c : Cell) : Option JsNum :=
  match c with
  | .cs s => jsParseFloat (commaToDot s)
  | .cn v => some v
  | .cnull => none

/-- Effective project type as computed in handleGenerateReports (App.tsx):
filename sniffing first, configured type as fallback. -/
def effectiveProjectTypeApp (fileName : String)
    (configured : ProjectType) : ProjectType :=
  let n := normalizeString fileName
  if containsStr n "datn" || containsStr n "kltn" then .datn
  else if containsStr n "bccd" then .bccd
  else configured

/-- Effective project type as computed in generateWordReports
(services/fileProcessor.ts). -/
def effectiveProjectTypeRenderer (fileName : String)
    (configured : ProjectType) : ProjectType :=
  let n := normalizeString fileName
  if containsStr n "datn" || containsStr n "kltn" then .datn
  else if containsStr n "bccd" then .bccd
  else configured

/-- Output base name of generateWordReports (kltn over datn over bccd over
the effective project type). -/
def rendererBaseName (fileName : String) (configured : ProjectType) : String :=
  let n := normalizeString fileName
  if containsStr n "kltn" then "KQ_KLTN"
  else if containsStr n "datn" then "KQ_ĐATN"
  else if containsStr n "bccd" then "KQ_BCCĐ"
  else
    match effectiveProjectTypeRenderer fileName configured with
    | .datn => "KQ_ĐATN"
    | .bccd => "KQ_BCCĐ"

/-- The resolution rule in the specification's words: normalize the file
name; datn or kltn means ĐATN, else bccd means BCCĐ, else the configured
type. -/
def specEffectiveType (fileName : String) (configured : ProjectType) : ProjectType :=
  if containsStr (normalizeString fileName) "datn"
      || containsStr (normalizeString fileName) "kltn" then .datn
  else if containsStr (normalizeString fileName) "bccd" then .bccd
  else configured

/-- C6: both call sites resolve the effective project type identically and
as the specification states, filename sniffing beats configuration, and the
two concrete template names behave as claimed. -/
theorem claim_C6_effective_project_type :
    (∀ (name : String) (cfg : ProjectType),
        effectiveProjectTypeApp name cfg = effectiveProjectTypeRenderer name cfg)
    ∧ (∀ (name : String) (cfg : ProjectType),
        effectiveProjectTypeRenderer name cfg = specEffectiveType name cfg)
    ∧ effectiveProjectTypeRenderer "Mau_DATN_v2.docx" .bccd = .datn
    ∧ rendererBaseName "Mau_DATN_v2.docx" .bccd = "KQ_ĐATN"
    ∧ (∀ cfg, effectiveProjectTypeRenderer "template.docx" cfg = cfg)
    ∧ (∀ cfg, effectiveProjectTypeApp "template.docx" cfg = cfg) := by
  refine ⟨fun name cfg => rfl, fun name cfg => rfl, by decide, by decide,
    fun cfg => ?_, fun cfg => ?_⟩ <;> cases cfg <;> decide

/-- Number of cells of a row whose normalized text contains some normalized
keyword (a cell count: the same keyword may be counted on several cells). -/
def rowMatchCount (keywords : List String) (row : List Cell) : Nat :=
  row.countP (fun cell =>
    keywords.any (fun kw => containsStr (cellNormalize cell) (normalizeString kw)))

/-- The scanning loop of detectHeaderRow: n iterations remain, i is the
current row index. -/
def detectHeaderGo (data : Grid) (keywords : List String) : Nat → Nat → Nat
  | 0, _ => 0
  | n + 1, i =>
      if 2 ≤ rowMatchCount keywords (data.getD i []) then i
      else detectHeaderGo data keywords n (i + 1)

/-- detectHeaderRow from services/fileProcessor.ts: scan the first
min(10, length) rows for the first with at least 2 keyword-matching cells,
defaulting to 0. -/
def detectHeaderRow (data : Grid) (keywords : List String) : Nat :=
  detectHeaderGo data keywords (min 10 data.length) 0

/-- The scanning loop returns the first qualifying index among the n indices
starting at i, and 0 when none qualifies. -/
lemma detectHeaderGo_spec (data : Grid) (keywords : List String) :
    ∀ (n i : Nat),
      detectHeaderGo data keywords n i =
        ((List.range' i n).find?
          (fun j => decide (2 ≤ rowMatchCount keywords (data.getD j [])))).getD 0 := by
  intro n
  induction n with
  | zero => intro i; rfl
  | succ n ih =>
      intro i
      rw [List.range'_succ, List.find?_cons]
      by_cases h : 2 ≤ rowMatchCount keywords (data.getD i [])
      · simp only [detectHeaderGo, if_pos h, decide_eq_true h]
        rfl
      · simp only [detectHeaderGo, if_neg h, decide_eq_false h]
        exact ih (i + 1)

/-- C8: the header locator scans only rows 0 to min(10, length) - 1, a row
qualifies when at least 2 of its cells match some keyword (cell count), the
first qualifying index is returned and 0 when none qualifies; the locator
is a total function. -/
theorem claim_C8_header_locator :
    ∀ (data : Grid) (keywords : List String),
      detectHeaderRow data keywords =
        ((List.range (min 10 data.length)).find?
          (fun j => decide (2 ≤ rowMatchCount keywords (data.getD j [])))).getD 0 := by
  intro data keywords
  rw [detectHeaderRow, List.range_eq_range']
  exact detectHeaderGo_spec data keywords (min 10 data.length) 0

/-- findColumn from services/fileProcessor.ts: first keyword (in priority
order) whose normalized form is contained in some normalized header; the
original header text of the first such header is returned. -/
def findColumn (headers : List String) : List String → Option String
  | [] => none
  | kw :: rest =>
      match headers.find?
          (fun h => containsStr (normalizeString h) (normalizeString kw)) with
      | some h => some h
      | none => findColumn headers rest

/-- List elements paired with their indices, starting at the given index. -/
def withIdxFrom : Nat → List α → List (Nat × α)
  | _, [] => []
  | i, a :: t => (i, a) :: withIdxFrom (i + 1) t

/-- List elements paired with their indices. -/
def withIdx (l : List α) : List (Nat × α) := withIdxFrom 0 l

/-- A resolved ratio column: original header, column index, trailing number. -/
structure RatioCol where
  header : String
  index : Nat
  num : Nat
deriving DecidableEq

/-- Trailing number of a normalized ratioin-column header. The source regex
has the two alternatives tile and ti-with-space-le, but normalized text
contains no space, so only tile plus a nonempty digit suffix can match. -/
def ratioColNum (norm : String) : Option Nat :=
  if ("tile".data).isPrefixOf norm.data then
    let rest := norm.data.drop 4
    if rest ≠ [] ∧ rest.all isDigitCh then some (digitsVal rest) else none
  else none

/-- Stable ascending insertion by trailing number (JavaScript sort with a
numeric comparator is stable, ties keep the original column order). -/
def insertByNum (x : RatioCol) : List RatioCol → List RatioCol
  | [] => [x]
  | y :: ys => if y.num ≤ x.num then y :: insertByNum x ys else x :: y :: ys

/-- Stable sort of ratio columns by trailing number. -/
def sortByNum (l : List RatioCol) : List RatioCol :=
  l.foldl (fun acc x => insertByNum x acc) []

/-- All ratio columns of a resolved header row, sorted by trailing number. -/
def ratioColumnsOf (headers : List String) : List RatioCol :=
  sortByNum ((withIdx headers).filterMap
    (fun p => (ratioColNum (normalizeString p.2)).map (fun n => RatioCol.mk p.2 p.1 n)))

/-- Header row of a grid for a keyword set: locate it, then apply the
String(h or empty).trim() conversion of the source. -/
def gridHeaders (g : Grid) (kws : List String) : List String :=
  (g.getD (detectHeaderRow g kws) []).map (fun h => jsTrim (jsOrEmptyStr h))

/-- One aggregated topic as produced by processMainData (the object with the
four Vietnamese keys). -/
structure MainAgg where
  tendetai : Cell
  hotenhv : String
  sohocvien : Nat
  nguoihuongdan : Cell
deriving DecidableEq

/-- A normalized record (MergedData from types.ts): the open c1..cN chapter
fields are an ordered sparse map from chapter number to score. sohocvien is
an Option Int because the direct-read path computes it with parseInt (none
models NaN there); the merger always sets it to the group size. -/
structure MergedData where
  hotenhv : String
  tendetai : Cell
  sohocvien : Option Int
  nguoihuongdan : Cell
  tv : Option JsNum := none
  chapters : List (Nat × JsNum) := []
deriving DecidableEq

/-- JavaScript object assignment for a chapter key: overwrite in place when
the key exists, append otherwise. -/
def setChapter (l : List (Nat × JsNum)) (n : Nat) (v : JsNum) : List (Nat × JsNum) :=
  if l.any (fun p => p.1 = n) then l.map (fun p => if p.1 = n then (n, v) else p)
  else l ++ [(n, v)]

def missingRatioColumnsMsg : String :=
  "File bổ sung không tìm thấy cột \x27TV\x27 hoặc các cột tỉ lệ (ví dụ: \x27Tỉ lệ 1\x27, \x27Tỉ lệ 2\x27, ...)."

/-- The tv value the merger assigns to project i: the TV column must be
resolved, the supplementary data row must exist, the cell must be non-null
and its numeric reading must not be NaN. -/
def mergerTv (dataRows : Grid) (tvColIndex : Option Nat) (i : Nat) : Option JsNum :=
  match dataRows[i]?, tvColIndex with
  | some row, some ti =>
      let tvVal := row.getD ti .cnull
      if tvVal = .cnull then none else cellNum tvVal
  | _, _ => none

/-- Loop body of the merger's chapter walk over data row q.2 at position
q.1: a non-null cell with non-blank string form and non-NaN numeric reading
sets chapter q.1 + 1. -/
def chapterStep (rc : RatioCol) (acc : List (Nat × JsNum))
    (q : Nat × List Cell) : List (Nat × JsNum) :=
  if q.2.getD rc.index .cnull ≠ .cnull
      ∧ jsTrim (cellStr (q.2.getD rc.index .cnull)) ≠ "" then
    match cellNum (q.2.getD rc.index .cnull) with
    | some v => setChapter acc (q.1 + 1) v
    | none => acc
  else acc

/-- The chapter map the merger assigns to project i: walk every data row of
the i-th sorted ratio column; non-blank cells whose numeric reading is not
NaN set chapter (row position + 1). -/
def mergerChapters (dataRows : Grid) (ratioCols : List RatioCol) (i : Nat) :
    List (Nat × JsNum) :=
  match ratioCols[i]? with
  | some rc => (withIdx dataRows).foldl (chapterStep rc) []
  | none => []

/-- Index of the resolved TV column: findColumn then indexOf of the
returned original header text. -/
def tvColumnIndex (headers : List String) : Option Nat :=
  (findColumn headers ["TV"]).map (fun h => headers.findIdx (fun x => x = h))

/-- mergeMainAndRatios from services/fileProcessor.ts. -/
def mergeMainAndRatios (dfMain : List MainAgg) (dfSupp : Grid) :
    Except String (List MergedData) :=
  let headerRowIndex := detectHeaderRow dfSupp ["TV", "Tỉ lệ"]
  let headers := (dfSupp.getD headerRowIndex []).map (fun h => jsTrim (jsOrEmptyStr h))
  let dataRows := dfSupp.drop (headerRowIndex + 1)
  let tvColIndex : Option Nat := tvColumnIndex headers
  let ratioCols := ratioColumnsOf headers
  if ratioCols.isEmpty ∧ tvColIndex = none then
    Except.error missingRatioColumnsMsg
  else
    Except.ok ((withIdx dfMain).map (fun p =>
      { hotenhv := p.2.hotenhv, tendetai := p.2.tendetai,
        sohocvien := some (p.2.sohocvien : Int),
        nguoihuongdan := p.2.nguoihuongdan,
        tv := mergerTv dataRows tvColIndex p.1,
        chapters := mergerChapters dataRows ratioCols p.1 }))

/-- C9: on a nonempty supplementary grid the merger fails with the
missing-ratio-columns error exactly when neither a TV column nor any ratio
column resolves in the located header row, and that is its only error. -/
theorem claim_C9_missing_ratio_columns_error :
    ∀ (dfMain : List MainAgg) (dfSupp : Grid),
      dfSupp ≠ [] →
      (mergeMainAndRatios dfMain dfSupp = Except.error missingRatioColumnsMsg ↔
        (findColumn (gridHeaders dfSupp ["TV", "Tỉ lệ"]) ["TV"] = none
          ∧ ratioColumnsOf (gridHeaders dfSupp ["TV", "Tỉ lệ"]) = []))
      ∧ (∀ e, mergeMainAndRatios dfMain dfSupp = Except.error e →
          e = missingRatioColumnsMsg) := by
  intro dfMain dfSupp _
  have hh : gridHeaders dfSupp ["TV", "Tỉ lệ"] =
      (dfSupp.getD (detectHeaderRow dfSupp ["TV", "Tỉ lệ"]) []).map
        (fun h => jsTrim (jsOrEmptyStr h)) := rfl
  constructor
  · rw [mergeMainAndRatios, hh]
    by_cases hcond :
        (ratioColumnsOf ((dfSupp.getD (detectHeaderRow dfSupp ["TV", "Tỉ lệ"]) []).map
            (fun h => jsTrim (jsOrEmptyStr h)))).isEmpty = true
          ∧ tvColumnIndex ((dfSupp.getD (detectHeaderRow dfSupp ["TV", "Tỉ lệ"]) []).map
              (fun h => jsTrim (jsOrEmptyStr h))) = none
    · rw [if_pos hcond]
      simp only [true_iff]
      constructor
      · exact Option.map_eq_none.mp hcond.2
      · exact List.isEmpty_iff.mp hcond.1
    · rw [if_neg hcond]
      simp only [reduceCtorEq, false_iff]
      intro hcon
      exact hcond ⟨List.isEmpty_iff.mpr hcon.2, Option.map_eq_none.mpr hcon.1⟩
  · intro e
    rw [mergeMainAndRatios]
    by_cases hcond :
        (ratioColumnsOf ((dfSupp.getD (detectHeaderRow dfSupp ["TV", "Tỉ lệ"]) []).map
            (fun h => jsTrim (jsOrEmptyStr h)))).isEmpty = true
          ∧ tvColumnIndex ((dfSupp.getD (detectHeaderRow dfSupp ["TV", "Tỉ lệ"]) []).map
              (fun h => jsTrim (jsOrEmptyStr h))) = none
    · rw [if_pos hcond]
      intro he
      cases he
      rfl
    · rw [if_neg hcond]
      intro he
      cases he

/-- Concrete instantiation of the C9 theorem: a supplementary grid whose
only header cell is TV resolves the scalar column, so the merge does not
fail. -/
theorem claim_C9_witness :
    ([[Cell.cs "TV"]] : Grid) ≠ []
    ∧ ((mergeMainAndRatios [] [[Cell.cs "TV"]] = Except.error missingRatioColumnsMsg ↔
        (findColumn (gridHeaders [[Cell.cs "TV"]] ["TV", "Tỉ lệ"]) ["TV"] = none
          ∧ ratioColumnsOf (gridHeaders [[Cell.cs "TV"]] ["TV", "Tỉ lệ"]) = []))
      ∧ (∀ e, mergeMainAndRatios [] [[Cell.cs "TV"]] = Except.error e →
          e = missingRatioColumnsMsg)) :=
  ⟨by decide, claim_C9_missing_ratio_columns_error [] [[Cell.cs "TV"]] (by decide)⟩

/-- Supplementary data rows: everything below the located header row. -/
def suppDataRows (g : Grid) : Grid :=
  g.drop (detectHeaderRow g ["TV", "Tỉ lệ"] + 1)

/-- Claim-side reading of one ratio-column cell of data row j: a non-blank
cell whose numeric reading is not NaN emits chapter j+1 with that value. -/
def chapterEmit (rc : RatioCol) (j : Nat) (row : List Cell) : Option (Nat × JsNum) :=
  if row.getD rc.index .cnull ≠ .cnull
      ∧ jsTrim (cellStr (row.getD rc.index .cnull)) ≠ "" then
    (cellNum (row.getD rc.index .cnull)).map (fun v => (j + 1, v))
  else none

/-- Claim-side finite parse of a cell: only a finite numeric reading counts
(NaN and the infinities do not). -/
def parsesFinite (c : Cell) : Option ℚ :=
  match cellNum c with
  | some (.fin q) => some q
  | _ => none

lemma withIdxFrom_length (l : List α) : ∀ k, (withIdxFrom k l).length = l.length := by
  induction l with
  | nil => intro k; rfl
  | cons a t ih => intro k; simp [withIdxFrom, ih]

lemma getElem?_withIdxFrom (l : List α) :
    ∀ (k i : Nat), (withIdxFrom k l)[i]? = l[i]?.map (fun a => (k + i, a)) := by
  induction l with
  | nil => intro k i; simp [withIdxFrom]
  | cons a t ih =>
      intro k i
      cases i with
      | zero => simp [withIdxFrom]
      | succ j =>
          have harith : k + 1 + j = k + (j + 1) := by omega
          simp only [withIdxFrom, List.getElem?_cons_succ, ih (k + 1) j, harith]

lemma getElem?_withIdx (l : List α) (i : Nat) :
    (withIdx l)[i]? = l[i]?.map (fun a => (i, a)) := by
  rw [withIdx, getElem?_withIdxFrom]
  simp

/-- One application of the chapter step on a fresh key either appends the
emitted pair or leaves the accumulator unchanged. -/
lemma chapterStep_eq (rc : RatioCol) (acc : List (Nat × JsNum)) (k : Nat)
    (r : List Cell) (hacc : ∀ p ∈ acc, p.1 ≤ k) :
    chapterStep rc acc (k, r) =
      acc ++ (chapterEmit rc k r).toList := by
  rw [chapterStep, chapterEmit]
  by_cases hc : (r.getD rc.index .cnull) ≠ .cnull
      ∧ jsTrim (cellStr (r.getD rc.index .cnull)) ≠ ""
  · rw [if_pos hc, if_pos hc]
    cases hv : cellNum (r.getD rc.index .cnull) with
    | some v =>
        have hset : setChapter acc (k + 1) v = acc ++ [(k + 1, v)] := by
          rw [setChapter, if_neg]
          simp only [List.any_eq_true, decide_eq_true_eq, not_exists]
          rintro p hp
          have := hacc p hp.1
          have := hp.2
          omega
        simp [hset]
    | none => simp
  · rw [if_neg hc, if_neg hc]
    simp

/-- The chapter fold of the merger emits exactly the non-blank, numerically
readable cells of the ratio column, in data-row order. -/
lemma chaptersFold (rc : RatioCol) (rows : Grid) :
    ∀ (k : Nat) (acc : List (Nat × JsNum)), (∀ p ∈ acc, p.1 ≤ k) →
      (withIdxFrom k rows).foldl (chapterStep rc) acc
        = acc ++ (withIdxFrom k rows).filterMap (fun q => chapterEmit rc q.1 q.2) := by
  induction rows with
  | nil => intro k acc _; simp [withIdxFrom]
  | cons r t ih =>
      intro k acc hacc
      rw [withIdxFrom, List.foldl_cons, List.filterMap_cons,
        chapterStep_eq rc acc k r hacc]
      cases he : chapterEmit rc k r with
      | some p =>
          have hp1 : p.1 = k + 1 := by
            rw [chapterEmit] at he
            by_cases hc : (r.getD rc.index .cnull) ≠ .cnull
                ∧ jsTrim (cellStr (r.getD rc.index .cnull)) ≠ ""
            · rw [if_pos hc] at he
              cases hv : cellNum (r.getD rc.index .cnull) with
              | some v => rw [hv] at he; cases he; rfl
              | none => rw [hv] at he; cases he
            · rw [if_neg hc] at he; cases he
          rw [ih (k + 1) (acc ++ (some p).toList) (by
            intro x hx
            rcases List.mem_append.mp hx with h | h
            · have := hacc x h; omega
            · simp only [Option.toList_some, List.mem_singleton] at h
              subst h
              omega)]
          simp
      | none =>
          rw [ih (k + 1) (acc ++ (none : Option (Nat × JsNum)).toList)
            (by
              intro x hx
              simp only [Option.toList_none, List.append_nil] at hx
              have := hacc x hx
              omega)]
          simp

/-- The merger sets tv exactly under the claim's conditions. -/
lemma mergerTv_iff (dataRows : Grid) (tvIdx : Option Nat) (i : Nat) (v : JsNum) :
    mergerTv dataRows tvIdx i = some v ↔
      (∃ ti row, tvIdx = some ti ∧ dataRows[i]? = some row
        ∧ row.getD ti .cnull ≠ .cnull
        ∧ cellNum (row.getD ti .cnull) = some v) := by
  cases ht : tvIdx with
  | none =>
      cases hr : dataRows[i]? with
      | none => rw [mergerTv.eq_def, hr]; simp
      | some row => rw [mergerTv.eq_def, hr]; simp
  | some ti =>
      cases hr : dataRows[i]? with
      | none => rw [mergerTv.eq_def, hr]; simp
      | some row =>
          rw [mergerTv.eq_def, hr]
          dsimp only
          by_cases hnull : (row.getD ti .cnull : Cell) = .cnull
          · rw [if_pos hnull]
            constructor
            · intro h; exact absurd h (by simp)
            · rintro ⟨ti', row', hti', hrow', hne', hcell'⟩
              injection hti' with h1
              injection hrow' with h2
              subst h1
              subst h2
              exact absurd hnull hne'
          · rw [if_neg hnull]
            constructor
            · intro h
              exact ⟨ti, row, rfl, rfl, hnull, h⟩
            · rintro ⟨ti', row', hti', hrow', hne', hcell'⟩
              injection hti' with h1
              injection hrow' with h2
              subst h1
              subst h2
              exact hcell'

/-- Decidable equality for merge results, used to evaluate the embedding at
concrete inputs. -/
instance {ε α : Type} [DecidableEq ε] [DecidableEq α] : DecidableEq (Except ε α) :=
  fun x y =>
    match x, y with
    | .error a, .error b =>
        if h : a = b then .isTrue (by rw [h])
        else .isFalse (fun hc => by cases hc; exact h rfl)
    | .ok a, .ok b =>
        if h : a = b then .isTrue (by rw [h])
        else .isFalse (fun hc => by cases hc; exact h rfl)
    | .error _, .ok _ => .isFalse (fun hc => Except.noConfusion hc)
    | .ok _, .error _ => .isFalse (fun hc => Except.noConfusion hc)

/-- The merger's chapter map in closed form: the i-th sorted ratio column
filtered over all data rows. -/
lemma mergerChapters_eq (dataRows : Grid) (ratioCols : List RatioCol) (i : Nat) :
    mergerChapters dataRows ratioCols i =
      (match ratioCols[i]? with
        | some rc => (withIdx dataRows).filterMap (fun q => chapterEmit rc q.1 q.2)
        | none => []) := by
  rw [mergerChapters.eq_def]
  cases hrc : ratioCols[i]? with
  | some rc =>
      have hz := chaptersFold rc dataRows 0 []
        (by intro p hp; simp at hp)
      have hw : withIdx dataRows = withIdxFrom 0 dataRows := rfl
      rw [hw]
      simpa using hz
  | none => rfl

/-- C2 as amended: the merger emits one record per topic in order, copying
the aggregated fields; tv is set exactly when the TV column is resolved,
data row i exists and its TV cell has a non-NaN numeric reading (comma or
dot decimal separator; JavaScript parseFloat also accepts the literal
Infinity, which is the amendment), in which case tv is that number and is
otherwise unset, never zero; the chapters of record i come from the i-th
ratio column sorted by trailing integer, set for exactly the non-blank,
numerically readable data rows; topics beyond the supplementary
rows/columns get no tv or chapters and cause no error. -/
theorem claim_C2_ratio_merger_amended :
    ∀ (dfMain : List MainAgg) (dfSupp : Grid) (rs : List MergedData),
      mergeMainAndRatios dfMain dfSupp = Except.ok rs →
      rs.length = dfMain.length
      ∧ (∀ (i : Nat) (a : MainAgg) (r : MergedData),
          dfMain[i]? = some a → rs[i]? = some r →
          (r.hotenhv = a.hotenhv ∧ r.tendetai = a.tendetai
            ∧ r.sohocvien = some (a.sohocvien : Int)
            ∧ r.nguoihuongdan = a.nguoihuongdan)
          ∧ (∀ v : JsNum, r.tv = some v ↔
              (∃ ti row, tvColumnIndex (gridHeaders dfSupp ["TV", "Tỉ lệ"]) = some ti
                ∧ (suppDataRows dfSupp)[i]? = some row
                ∧ row.getD ti .cnull ≠ .cnull
                ∧ cellNum (row.getD ti .cnull) = some v))
          ∧ (match (ratioColumnsOf (gridHeaders dfSupp ["TV", "Tỉ lệ"]))[i]? with
              | some rc => r.chapters =
                  (withIdx (suppDataRows dfSupp)).filterMap
                    (fun q => chapterEmit rc q.1 q.2)
              | none => r.chapters = [])) := by
  intro dfMain dfSupp rs hok
  rw [mergeMainAndRatios] at hok
  by_cases hcond :
      (ratioColumnsOf ((dfSupp.getD (detectHeaderRow dfSupp ["TV", "Tỉ lệ"]) []).map
          (fun h => jsTrim (jsOrEmptyStr h)))).isEmpty = true
        ∧ tvColumnIndex ((dfSupp.getD (detectHeaderRow dfSupp ["TV", "Tỉ lệ"]) []).map
            (fun h => jsTrim (jsOrEmptyStr h))) = none
  · rw [if_pos hcond] at hok
    exact absurd hok (by simp)
  · rw [if_neg hcond] at hok
    injection hok with hok'
    subst hok'
    constructor
    · rw [List.length_map, withIdx, withIdxFrom_length]
    · intro i a r ha hr
      rw [List.getElem?_map, getElem?_withIdx, ha] at hr
      simp only [Option.map_some'] at hr
      injection hr with hr'
      subst hr'
      refine ⟨⟨rfl, rfl, rfl, rfl⟩, ?_, ?_⟩
      · intro v
        exact mergerTv_iff (suppDataRows dfSupp)
          (tvColumnIndex (gridHeaders dfSupp ["TV", "Tỉ lệ"])) i v
      · have h := mergerChapters_eq (suppDataRows dfSupp)
          (ratioColumnsOf (gridHeaders dfSupp ["TV", "Tỉ lệ"])) i
        cases hrc : (ratioColumnsOf (gridHeaders dfSupp ["TV", "Tỉ lệ"]))[i]? with
        | some rc =>
            rw [hrc] at h
            exact h
        | none =>
            rw [hrc] at h
            exact h

/-- C2 counterexample: a TV cell holding the literal Infinity does not parse
to a finite number, yet the merger sets tv (JavaScript parseFloat returns
Infinity and the isNaN guard passes), contradicting the claim's
finite-number condition. -/
theorem claim_C2_counterexample_infinity :
    mergeMainAndRatios [MainAgg.mk (Cell.cs "T") "A" 1 (Cell.cs "")]
        [[Cell.cs "TV"], [Cell.cs "Infinity"]]
      = Except.ok [MergedData.mk "A" (Cell.cs "T") (some 1) (Cell.cs "")
          (some (JsNum.inf true)) []]
    ∧ parsesFinite (Cell.cs "Infinity") = none := ⟨rfl, rfl⟩

def c2ExMain : List MainAgg :=
  [MainAgg.mk (Cell.cs "T1") "A" 1 (Cell.cs ""),
   MainAgg.mk (Cell.cs "T2") "B" 1 (Cell.cs ""),
   MainAgg.mk (Cell.cs "T3") "C" 1 (Cell.cs "")]

def c2ExSupp : Grid :=
  [[Cell.cs "TV", Cell.cs "Tỉ lệ 1", Cell.cs "Tỉ lệ 2"],
   [Cell.cs "10", Cell.cs "1,5", Cell.cs "4"],
   [Cell.cs "28,5", Cell.cs "2", Cell.cs "5"],
   [Cell.cs "", Cell.cs "3", Cell.cs ""]]

def c2ExOut : List MergedData :=
  [MergedData.mk "A" (Cell.cs "T1") (some 1) (Cell.cs "") (some (JsNum.fin 10))
     [(1, JsNum.fin (mkRat 3 2)), (2, JsNum.fin 2), (3, JsNum.fin 3)],
   MergedData.mk "B" (Cell.cs "T2") (some 1) (Cell.cs "") (some (JsNum.fin (mkRat 57 2)))
     [(1, JsNum.fin 4), (2, JsNum.fin 5)],
   MergedData.mk "C" (Cell.cs "T3") (some 1) (Cell.cs "") none []]

/-- Concrete instantiation of the amended C2 theorem on the specification's
positional-correspondence example (TV column 10, 28 comma 5, blank; two
ratio columns over three data rows). -/
theorem claim_C2_ratio_merger_amended_witness :
    c2ExOut.length = c2ExMain.length
    ∧ (∀ (i : Nat) (a : MainAgg) (r : MergedData),
        c2ExMain[i]? = some a → c2ExOut[i]? = some r →
        (r.hotenhv = a.hotenhv ∧ r.tendetai = a.tendetai
          ∧ r.sohocvien = some (a.sohocvien : Int)
          ∧ r.nguoihuongdan = a.nguoihuongdan)
        ∧ (∀ v : JsNum, r.tv = some v ↔
            (∃ ti row, tvColumnIndex (gridHeaders c2ExSupp ["TV", "Tỉ lệ"]) = some ti
              ∧ (suppDataRows c2ExSupp)[i]? = some row
              ∧ row.getD ti .cnull ≠ .cnull
              ∧ cellNum (row.getD ti .cnull) = some v))
        ∧ (match (ratioColumnsOf (gridHeaders c2ExSupp ["TV", "Tỉ lệ"]))[i]? with
            | some rc => r.chapters =
                (withIdx (suppDataRows c2ExSupp)).filterMap
                  (fun q => chapterEmit rc q.1 q.2)
            | none => r.chapters = [])) :=
  claim_C2_ratio_merger_amended c2ExMain c2ExSupp c2ExOut (by decide)

/-- Last index at which a header name occurs (JavaScript object building
assigns obj[h] = row[i] for every column, so a duplicated header keeps the
last cell). -/
def lastIdxOf (l : List String) (a : String) : Option Nat :=
  (((withIdx l).filter (fun p => p.2 = a)).getLast?).map (fun p => p.1)

/-- The cell a row object holds under a resolved column name. -/
def objGet (headers : List String) (row : List Cell) (col : String) : Cell :=
  match lastIdxOf headers col with
  | some i => row.getD i .cnull
  | none => .cnull

/-- A data row after attaching cells to header names and forward-filling the
topic: the three cells the aggregator reads. -/
structure FilledRow where
  topic : Cell
  name : Cell
  guide : Cell
deriving DecidableEq

/-- The forward-fill pass of processMainData: a falsy topic cell is replaced
by the last truthy topic (initially the empty string); when the student-name
or advisor column resolves to the same header as the topic column, the
mutated object field is read back. -/
def fillRows (headers : List String) (topicCol nameCol : String)
    (guideCol : Option String) : Cell → List (List Cell) → List FilledRow
  | _, [] => []
  | lastTopic, row :: rest =>
      let raw := objGet headers row topicCol
      let t := if jsTruthy raw then raw else lastTopic
      let nm := if nameCol = topicCol then t else objGet headers row nameCol
      let gd := match guideCol with
        | some g => if g = topicCol then t else objGet headers row g
        | none => .cnull
      FilledRow.mk t nm gd :: fillRows headers topicCol nameCol guideCol t rest

/-- JavaScript property-key coercion of a topic value. -/
def cellKeyStr (c : Cell) : String := cellStr c

/-- Canonical array-index property key: nonempty digits, no leading zero
except the key 0 itself, value below 2^32 - 1. -/
def isArrayIndexKey (s : String) : Option Nat :=
  if s.data ≠ [] ∧ s.data.all isDigitCh ∧ (s = "0" ∨ s.data.getD 0 '0' ≠ '0')
      ∧ digitsVal s.data < 4294967295 then
    some (digitsVal s.data)
  else none

/-- The grouping reduce of processMainData: push each row onto its
topic-key's array, keys in insertion order. -/
def groupFold (rows : List FilledRow) : List (String × List FilledRow) :=
  rows.foldl (fun acc r =>
    let k := cellKeyStr r.topic
    if acc.any (fun p => p.1 = k) then
      acc.map (fun p => if p.1 = k then (p.1, p.2 ++ [r]) else p)
    else acc ++ [(k, [r])]) []

/-- Stable ascending insertion by the numeric first component. -/
def insertByFst {β : Type} (x : Nat × β) : List (Nat × β) → List (Nat × β)
  | [] => [x]
  | y :: ys => if y.1 ≤ x.1 then y :: insertByFst x ys else x :: y :: ys

/-- Stable ascending sort by the numeric first component. -/
def sortByFst {β : Type} (l : List (Nat × β)) : List (Nat × β) :=
  l.foldl (fun acc x => insertByFst x acc) []

/-- JavaScript Object.values enumeration order over the grouped object:
array-index keys first in ascending numeric order, then the remaining keys
in insertion order. -/
def objectValuesOrdered (assoc : List (String × List FilledRow)) :
    List (List FilledRow) :=
  (sortByFst (assoc.filterMap
      (fun p => (isArrayIndexKey p.1).map (fun n => (n, p))))).map (fun q => q.2.2)
    ++ (assoc.filter (fun p => isArrayIndexKey p.1 = none)).map (fun p => p.2)

/-- JavaScript Array.prototype.join with a comma-space separator. -/
def joinComma : List String → String
  | [] => ""
  | [s] => s
  | s :: rest => s ++ ", " ++ joinComma rest

/-- Aggregation of one topic group: first row's topic, trimmed non-empty
names joined by comma-space, group size, first row's advisor or empty. -/
def aggGroup (guideCol : Option String) (g : List FilledRow) : MainAgg :=
  let first := g.headD (FilledRow.mk .cnull .cnull .cnull)
  let names := (g.map (fun r => jsTrim (jsOrEmptyStr r.name))).filter (fun s => s ≠ "")
  MainAgg.mk first.topic (joinComma names) g.length
    (match guideCol with
     | some _ => if jsTruthy first.guide then first.guide else .cs ""
     | none => .cs "")

def mainKeywords : List String := ["Tên đề tài", "Họ tên HV", "Người hướng dẫn"]

def missingMainColumnsMsg : String :=
  "File chính phải có cột \x27Tên đề tài\x27 và \x27Họ tên HV\x27."

/-- processMainData from services/fileProcessor.ts. -/
def processMainData (rawData : Grid) : Except String (List MainAgg) :=
  let headerRowIndex := detectHeaderRow rawData mainKeywords
  let headers := (rawData.getD headerRowIndex []).map (fun h => jsTrim (jsOrEmptyStr h))
  let dataRows := rawData.drop (headerRowIndex + 1)
  let topicCol := findColumn headers ["Tên đề tài", "De tai"]
  let nameCol := findColumn headers ["Họ tên HV", "Ten hoc vien"]
  let guideCol := findColumn headers ["Người hướng dẫn"]
  match topicCol, nameCol with
  | some tc, some nc =>
      Except.ok ((objectValuesOrdered (groupFold
        ((fillRows headers tc nc guideCol (Cell.cs "") dataRows).filter
          (fun r => jsTruthy r.name)))).map (aggGroup guideCol))
  | _, _ => Except.error missingMainColumnsMsg

/-- A text cell in the claim's sense: a string or null, not a number. -/
def isTextCell (c : Cell) : Bool :=
  match c with
  | .cn _ => false
  | _ => true

/-- Blank cell in the claim's sense: null or the empty string. -/
def blankCell (c : Cell) : Bool :=
  match c with
  | .cs s => s = ""
  | .cn _ => false
  | .cnull => true

/-- The claim's forward-fill pass: blank topic cells reuse the last
non-blank topic (initially empty), with the same read-back of a shared
column as the source. -/
def claimFillRows (headers : List String) (topicCol nameCol : String)
    (guideCol : Option String) : Cell → List (List Cell) → List FilledRow
  | _, [] => []
  | lastTopic, row :: rest =>
      let raw := objGet headers row topicCol
      let t := if blankCell raw then lastTopic else raw
      let nm := if nameCol = topicCol then t else objGet headers row nameCol
      let gd := match guideCol with
        | some g => if g = topicCol then t else objGet headers row g
        | none => .cnull
      FilledRow.mk t nm gd :: claimFillRows headers topicCol nameCol guideCol t rest

/-- First-appearance deduplication of group keys. -/
def dedupKeys (ks : List String) : List String :=
  ks.foldl (fun acc k => if k ∈ acc then acc else acc ++ [k]) []

/-- Groups by exact topic-key string in first-appearance order (the original
claim's grouping order). -/
def claimGroupsFirstAppearance (rows : List FilledRow) : List (List FilledRow) :=
  (dedupKeys (rows.map (fun r => cellKeyStr r.topic))).map
    (fun k => rows.filter (fun r => cellKeyStr r.topic = k))

/-- Aggregation exactly as the original claim words it: studentNames joins
every trimmed name of the group, empty or not. -/
def claimAggGroupLit (guideCol : Option String) (g : List FilledRow) : MainAgg :=
  let first := g.headD (FilledRow.mk .cnull .cnull .cnull)
  MainAgg.mk first.topic (joinComma (g.map (fun r => jsTrim (jsOrEmptyStr r.name))))
    g.length
    (match guideCol with
     | some _ => if jsTruthy first.guide then first.guide else .cs ""
     | none => .cs "")

/-- The aggregator exactly as claim C4 words it: forward-fill blank topic
cells, drop blank-name rows, group by exact topic string in
first-appearance order, join the trimmed names of each group. -/
def claimAggregateC4 (rawData : Grid) : List MainAgg :=
  let headers := gridHeaders rawData mainKeywords
  let dataRows := rawData.drop (detectHeaderRow rawData mainKeywords + 1)
  match findColumn headers ["Tên đề tài", "De tai"],
      findColumn headers ["Họ tên HV", "Ten hoc vien"] with
  | some tc, some nc =>
      (claimGroupsFirstAppearance
        ((claimFillRows headers tc nc (findColumn headers ["Người hướng dẫn"])
            (Cell.cs "") dataRows).filter (fun r => blankCell r.name = false))).map
        (claimAggGroupLit (findColumn headers ["Người hướng dẫn"]))
  | _, _ => []

/-- The amended claim's grouping order: first-appearance groups, but
canonical-integer topic keys are enumerated first, ascending. -/
def claimGroupsAmended (rows : List FilledRow) : List (List FilledRow) :=
  let ks := dedupKeys (rows.map (fun r => cellKeyStr r.topic))
  ((sortByFst (ks.filterMap (fun k => (isArrayIndexKey k).map (fun n => (n, k))))).map
      (fun q => q.2)
    ++ ks.filter (fun k => isArrayIndexKey k = none)).map
    (fun k => rows.filter (fun r => cellKeyStr r.topic = k))

/-- The aggregator as the amended claim describes it. -/
def claimAggregateAmended (rawData : Grid) : List MainAgg :=
  let headers := gridHeaders rawData mainKeywords
  let dataRows := rawData.drop (detectHeaderRow rawData mainKeywords + 1)
  match findColumn headers ["Tên đề tài", "De tai"],
      findColumn headers ["Họ tên HV", "Ten hoc vien"] with
  | some tc, some nc =>
      (claimGroupsAmended
        ((claimFillRows headers tc nc (findColumn headers ["Người hướng dẫn"])
            (Cell.cs "") dataRows).filter (fun r => blankCell r.name = false))).map
        (aggGroup (findColumn headers ["Người hướng dẫn"]))
  | _, _ => []

lemma mem_dedupAux (a : String) :
    ∀ (ks : List String) (acc : List String),
      (a ∈ ks.foldl (fun acc k => if k ∈ acc then acc else acc ++ [k]) acc ↔
        a ∈ acc ∨ a ∈ ks) := by
  intro ks
  induction ks with
  | nil => intro acc; simp
  | cons k t ih =>
      intro acc
      rw [List.foldl_cons, ih]
      by_cases hk : k ∈ acc
      · rw [if_pos hk]
        constructor
        · intro h
          rcases h with h | h
          · exact Or.inl h
          · exact Or.inr (List.mem_cons_of_mem k h)
        · intro h
          rcases h with h | h
          · exact Or.inl h
          · rcases List.mem_cons.mp h with h2 | h2
            · subst h2; exact Or.inl hk
            · exact Or.inr h2
      · rw [if_neg hk]
        constructor
        · intro h
          rcases h with h | h
          · rcases List.mem_append.mp h with h1 | h1
            · exact Or.inl h1
            · rcases List.mem_cons.mp h1 with h2 | h2
              · rw [h2]; exact Or.inr (List.mem_cons_self k t)
              · cases h2
          · exact Or.inr (List.mem_cons_of_mem k h)
        · intro h
          rcases h with h | h
          · exact Or.inl (List.mem_append.mpr (Or.inl h))
          · rcases List.mem_cons.mp h with h2 | h2
            · rw [h2]
              exact Or.inl (List.mem_append.mpr (Or.inr (List.mem_cons_self k [])))
            · exact Or.inr h2

lemma mem_dedupKeys (a : String) (ks : List String) :
    a ∈ dedupKeys ks ↔ a ∈ ks := by
  rw [dedupKeys]
  simpa using mem_dedupAux a ks []

lemma dedupKeys_append (ks : List String) (k : String) :
    dedupKeys (ks ++ [k]) =
      if k ∈ dedupKeys ks then dedupKeys ks else dedupKeys ks ++ [k] := by
  rw [dedupKeys, List.foldl_append]
  rfl

/-- The grouping reduce in closed form: keys deduplicated in first-appearance
order, each holding the rows with that topic key in row order. -/
lemma groupFold_eq (rows : List FilledRow) :
    groupFold rows = (dedupKeys (rows.map (fun r => cellKeyStr r.topic))).map
      (fun k => (k, rows.filter (fun r => cellKeyStr r.topic = k))) := by
  induction rows using List.reverseRecOn with
  | nil => rfl
  | append_singleton rows r ih =>
      have hstep : groupFold (rows ++ [r]) =
          (fun acc (x : FilledRow) =>
            let k := cellKeyStr x.topic
            if acc.any (fun p => p.1 = k) then
              acc.map (fun p => if p.1 = k then (p.1, p.2 ++ [x]) else p)
            else acc ++ [(k, [x])]) (groupFold rows) r := by
        rw [groupFold, List.foldl_append]
        rfl
      rw [hstep, ih]
      dsimp only
      rw [List.map_append]
      simp only [List.map_cons, List.map_nil]
      rw [dedupKeys_append]
      by_cases hmem : cellKeyStr r.topic ∈ dedupKeys (rows.map (fun x => cellKeyStr x.topic))
      · have hany : ((dedupKeys (rows.map (fun x => cellKeyStr x.topic))).map
            (fun k => (k, rows.filter (fun x => cellKeyStr x.topic = k)))).any
              (fun p => p.1 = cellKeyStr r.topic) = true := by
          refine List.any_eq_true.mpr
            ⟨(cellKeyStr r.topic,
              rows.filter (fun x => cellKeyStr x.topic = cellKeyStr r.topic)),
              List.mem_map_of_mem _ hmem, by simp⟩
        rw [if_pos hmem, if_pos hany, List.map_map]
        apply List.map_congr_left
        intro k hk
        simp only [Function.comp]
        by_cases hke : k = cellKeyStr r.topic
        · subst hke
          simp [List.filter_append, List.filter_cons]
        · have hrk : ¬(cellKeyStr r.topic = k) := fun h => hke h.symm
          rw [if_neg hke]
          simp [List.filter_append, List.filter_cons, hrk]
      · have hany : ((dedupKeys (rows.map (fun x => cellKeyStr x.topic))).map
            (fun k => (k, rows.filter (fun x => cellKeyStr x.topic = k)))).any
              (fun p => p.1 = cellKeyStr r.topic) = false := by
          refine List.any_eq_false.mpr ?_
          intro p hp
          rcases List.mem_map.mp hp with ⟨k, hk, rfl⟩
          simp only [decide_eq_true_eq]
          intro heq
          exact hmem (heq ▸ hk)
        rw [if_neg hmem, if_neg (by simp [hany]), List.map_append]
        congr 1
        · apply List.map_congr_left
          intro k hk
          have hrk : ¬(cellKeyStr r.topic = k) := by
            intro heq
            exact hmem (heq ▸ hk)
          simp [List.filter_append, List.filter_cons, hrk]
        · have hnil : rows.filter (fun x => cellKeyStr x.topic = cellKeyStr r.topic) = [] := by
            rw [List.filter_eq_nil_iff]
            intro x hx
            simp only [decide_eq_true_eq]
            intro heq
            exact hmem ((mem_dedupKeys _ _).mpr
              (heq ▸ List.mem_map_of_mem (fun y => cellKeyStr y.topic) hx))
          simp [List.filter_append, List.filter_cons, hnil]

lemma insertByFst_map {β γ : Type} (ψ : Nat × β → γ) (x : Nat × β) :
    ∀ l : List (Nat × β),
      insertByFst (x.1, ψ x) (l.map (fun y => (y.1, ψ y)))
        = (insertByFst x l).map (fun y => (y.1, ψ y)) := by
  intro l
  induction l with
  | nil => rfl
  | cons y ys ih =>
      rw [List.map_cons, insertByFst, insertByFst]
      by_cases h : y.1 ≤ x.1
      · rw [if_pos h, if_pos h, List.map_cons, ih]
      · rw [if_neg h, if_neg h]
        simp

lemma sortByFst_map {β γ : Type} (ψ : Nat × β → γ) (l : List (Nat × β)) :
    sortByFst (l.map (fun y => (y.1, ψ y))) = (sortByFst l).map (fun y => (y.1, ψ y)) := by
  rw [sortByFst, sortByFst]
  suffices h : ∀ acc : List (Nat × β),
      (l.map (fun y => (y.1, ψ y))).foldl (fun acc x => insertByFst x acc)
          (acc.map (fun y => (y.1, ψ y)))
        = (l.foldl (fun acc x => insertByFst x acc) acc).map (fun y => (y.1, ψ y)) by
    simpa using h []
  induction l with
  | nil => intro acc; rfl
  | cons x xs ih =>
      intro acc
      rw [List.map_cons, List.foldl_cons, List.foldl_cons, insertByFst_map ψ x acc, ih]

/-- Object.values enumeration over a keys-to-groups map factors through the
key list. -/
lemma objectValues_map (D : List String) (F : String → List FilledRow) :
    objectValuesOrdered (D.map (fun k => (k, F k))) =
      ((sortByFst (D.filterMap (fun k => (isArrayIndexKey k).map (fun n => (n, k))))).map
          (fun q => q.2)
        ++ D.filter (fun k => isArrayIndexKey k = none)).map F := by
  rw [objectValuesOrdered, List.map_append]
  congr 1
  · have h1 : (D.map (fun k => (k, F k))).filterMap
        (fun p => (isArrayIndexKey p.1).map (fun n => (n, p)))
        = (D.filterMap (fun k => (isArrayIndexKey k).map (fun n => (n, k)))).map
            (fun y => (y.1, (y.2, F y.2))) := by
      rw [List.filterMap_map, List.map_filterMap]
      congr 1
      funext k
      rw [Option.map_map]
      rfl
    rw [h1, sortByFst_map (fun y => (y.2, F y.2)), List.map_map, List.map_map]
    rfl
  · rw [List.filter_map, List.map_map]
    rfl

/-- Grouping and enumerating via the JavaScript object equals the amended
claim's first-appearance-then-integer-keys description. -/
lemma objectValues_groupFold (rows : List FilledRow) :
    (objectValuesOrdered (groupFold rows)) = claimGroupsAmended rows := by
  rw [groupFold_eq, objectValues_map, claimGroupsAmended]

lemma truthy_eq_not_blank {c : Cell} (h : isTextCell c = true) :
    jsTruthy c = !(blankCell c) := by
  cases c with
  | cs s => by_cases hs : s = "" <;> simp [jsTruthy, blankCell, hs]
  | cn v => simp [isTextCell] at h
  | cnull => rfl

lemma objGet_text {row : List Cell} (h : ∀ c ∈ row, isTextCell c = true)
    (headers : List String) (col : String) :
    isTextCell (objGet headers row col) = true := by
  rw [objGet]
  cases lastIdxOf headers col with
  | none => rfl
  | some i =>
      dsimp only
      rw [List.getD_eq_getElem?_getD]
      cases hc : row[i]? with
      | none => rfl
      | some c =>
          exact h c (List.getElem?_mem hc)

/-- On text cells the source's truthiness test is the claim's blank test. -/
lemma fillRows_eq_claim (headers : List String) (tc nc : String) (gc : Option String) :
    ∀ (rows : List (List Cell)) (lastTopic : Cell),
      isTextCell lastTopic = true →
      (∀ row ∈ rows, ∀ c ∈ row, isTextCell c = true) →
      fillRows headers tc nc gc lastTopic rows
        = claimFillRows headers tc nc gc lastTopic rows := by
  intro rows
  induction rows with
  | nil => intro lastTopic _ _; rfl
  | cons row rest ih =>
      intro lastTopic hlt hcells
      have hrow : ∀ c ∈ row, isTextCell c = true := hcells row (by simp)
      have hraw := objGet_text hrow headers tc
      have ht : (if jsTruthy (objGet headers row tc) then objGet headers row tc else lastTopic)
          = (if blankCell (objGet headers row tc) then lastTopic
             else objGet headers row tc) := by
        rw [truthy_eq_not_blank hraw]
        cases hb : blankCell (objGet headers row tc) <;> simp
      have htext : isTextCell (if blankCell (objGet headers row tc) then lastTopic
          else objGet headers row tc) = true := by
        cases hb : blankCell (objGet headers row tc) <;> simp [hlt, hraw]
      simp only [fillRows, claimFillRows]
      rw [ht, ih _ htext (fun r hr => hcells r (List.mem_cons_of_mem _ hr))]

lemma claimFillRows_name_text (headers : List String) (tc nc : String)
    (gc : Option String) :
    ∀ (rows : List (List Cell)) (lastTopic : Cell),
      isTextCell lastTopic = true →
      (∀ row ∈ rows, ∀ c ∈ row, isTextCell c = true) →
      ∀ r ∈ claimFillRows headers tc nc gc lastTopic rows, isTextCell r.name = true := by
  intro rows
  induction rows with
  | nil => intro lastTopic _ _ r hr; simp [claimFillRows] at hr
  | cons row rest ih =>
      intro lastTopic hlt hcells r hr
      have hrow : ∀ c ∈ row, isTextCell c = true := hcells row (by simp)
      have hraw := objGet_text hrow headers tc
      have htext : isTextCell (if blankCell (objGet headers row tc) then lastTopic
          else objGet headers row tc) = true := by
        cases hb : blankCell (objGet headers row tc) <;> simp [hlt, hraw]
      simp only [claimFillRows] at hr
      rcases List.mem_cons.mp hr with rfl | hr2
      · dsimp only
        by_cases hn : nc = tc
        · rw [if_pos hn]
          exact htext
        · rw [if_neg hn]
          exact objGet_text hrow headers nc
      · exact ih _ htext (fun r2 hr2b => hcells r2 (List.mem_cons_of_mem _ hr2b)) r hr2

lemma filter_name_eq (rows : List FilledRow)
    (h : ∀ r ∈ rows, isTextCell r.name = true) :
    rows.filter (fun r => jsTruthy r.name)
      = rows.filter (fun r => blankCell r.name = false) := by
  apply List.filter_congr
  intro r hr
  rw [truthy_eq_not_blank (h r hr)]
  cases hb : blankCell r.name <;> rfl

/-- C4 as amended: on text grids with resolvable topic and student-name
columns the aggregator forward-fills blank topic cells, drops blank-name
rows, groups by exact topic string in first-appearance order except that
canonical-integer topic titles are enumerated first in ascending numeric
order (JavaScript object key order), joins the trimmed names that remain
non-empty with comma-space in row order, and counts every row of the
group. -/
theorem claim_C4_aggregator_amended :
    ∀ (rawData : Grid),
      (∀ row ∈ rawData, ∀ c ∈ row, isTextCell c = true) →
      ∀ (tc nc : String),
        findColumn (gridHeaders rawData mainKeywords) ["Tên đề tài", "De tai"] = some tc →
        findColumn (gridHeaders rawData mainKeywords) ["Họ tên HV", "Ten hoc vien"] = some nc →
        processMainData rawData = Except.ok (claimAggregateAmended rawData) := by
  intro rawData hcells tc nc htc hnc
  have hg : (rawData.getD (detectHeaderRow rawData mainKeywords) []).map
      (fun h => jsTrim (jsOrEmptyStr h)) = gridHeaders rawData mainKeywords := rfl
  rw [processMainData, claimAggregateAmended, hg, htc, hnc]
  dsimp only
  congr 1
  have hdata : ∀ row ∈ rawData.drop (detectHeaderRow rawData mainKeywords + 1),
      ∀ c ∈ row, isTextCell c = true :=
    fun row hrow => hcells row (List.mem_of_mem_drop hrow)
  rw [fillRows_eq_claim (gridHeaders rawData mainKeywords) tc nc
      (findColumn (gridHeaders rawData mainKeywords) ["Người hướng dẫn"])
      (rawData.drop (detectHeaderRow rawData mainKeywords + 1)) (Cell.cs "") rfl hdata,
    filter_name_eq _ (claimFillRows_name_text (gridHeaders rawData mainKeywords) tc nc
      (findColumn (gridHeaders rawData mainKeywords) ["Người hướng dẫn"])
      (rawData.drop (detectHeaderRow rawData mainKeywords + 1)) (Cell.cs "") rfl hdata),
    objectValues_groupFold]

def c4ExA : Grid :=
  [[Cell.cs "Tên đề tài", Cell.cs "Họ tên HV"],
   [Cell.cs "2", Cell.cs "A"], [Cell.cs "1", Cell.cs "B"]]

def c4ExB : Grid :=
  [[Cell.cs "Tên đề tài", Cell.cs "Họ tên HV"],
   [Cell.cs "T", Cell.cs "A"], [Cell.cs "T", Cell.cs " "]]

/-- C4 counterexample: on topic titles 2 and 1 the code emits the groups in
ascending numeric key order, not first-appearance order (JavaScript
array-index keys enumerate first); and a whitespace-only student name keeps
its row in the group count but is dropped from the joined names, so the
output names differ from the claim's join of all trimmed names. -/
theorem claim_C4_counterexample :
    processMainData c4ExA ≠ Except.ok (claimAggregateC4 c4ExA)
    ∧ processMainData c4ExB ≠ Except.ok (claimAggregateC4 c4ExB) := by decide

def c4ExSpec : Grid :=
  [[Cell.cs "Tên đề tài", Cell.cs "Họ tên HV"],
   [Cell.cs "T1", Cell.cs "A"], [Cell.cnull, Cell.cs "B"],
   [Cell.cs "T2", Cell.cs "C"]]

/-- Concrete instantiation of the amended C4 theorem on the claim's own
example: rows T1/A, blank/B, T2/C yield T1 with names A, B and count 2,
then T2 with C and count 1. -/
theorem claim_C4_aggregator_amended_witness :
    (∀ row ∈ c4ExSpec, ∀ c ∈ row, isTextCell c = true)
    ∧ findColumn (gridHeaders c4ExSpec mainKeywords) ["Tên đề tài", "De tai"]
        = some "Tên đề tài"
    ∧ findColumn (gridHeaders c4ExSpec mainKeywords) ["Họ tên HV", "Ten hoc vien"]
        = some "Họ tên HV"
    ∧ processMainData c4ExSpec = Except.ok (claimAggregateAmended c4ExSpec)
    ∧ processMainData c4ExSpec = Except.ok
        [MainAgg.mk (Cell.cs "T1") "A, B" 2 (Cell.cs ""),
         MainAgg.mk (Cell.cs "T2") "C" 1 (Cell.cs "")] :=
  ⟨by decide, by decide, by decide,
    claim_C4_aggregator_amended c4ExSpec (by decide) "Tên đề tài" "Họ tên HV"
      (by decide) (by decide),
    by decide⟩

/-- JavaScript parseInt with radix 10: skip whitespace, optional sign,
longest digit prefix; none models NaN. -/
def jsParseInt (s : String) : Option Int :=
  let l := s.data.dropWhile wsChar
  let sgn := match l with
    | '-' :: t => (true, t)
    | '+' :: t => (false, t)
    | _ => (false, l)
  let ds := sgn.2.takeWhile isDigitCh
  if ds.isEmpty then none
  else some (if sgn.1 then -((digitsVal ds : Nat) : Int) else ((digitsVal ds : Nat) : Int))

/-- JavaScript String(x or default): the string form of a truthy value,
otherwise the default. -/
def jsOrDefault (c : Cell) (d : String) : String := if jsTruthy c then cellStr c else d

/-- Chapter number a normalized data-file header contributes. The reading
regex accepts c, chuong or tile followed by digits, but the replace regex
tries the alternative c first, so a chuong-N header yields the key
chuong-N (with only its c stripped), which no later consumer reads; such
headers are modelled as contributing no chapter. Only c-digits and
tile-digits headers produce genuine cN keys. -/
def directChapterNum (h : String) : Option Nat :=
  if ("c".data).isPrefixOf h.data ∧ h.data.drop 1 ≠ [] ∧ (h.data.drop 1).all isDigitCh then
    some (digitsVal (h.data.drop 1))
  else if ("tile".data).isPrefixOf h.data ∧ h.data.drop 4 ≠ []
      ∧ (h.data.drop 4).all isDigitCh then
    some (digitsVal (h.data.drop 4))
  else none

/-- The chapter sweep of the direct-read path over all headers of one data
row (a cell whose parseFloat is NaN is stored as NaN in the source and is
invisible to every later consumer; it is modelled as absent). -/
def directChapters (headers : List String) (row : List Cell) : List (Nat × JsNum) :=
  (withIdx headers).foldl (fun acc p =>
    match directChapterNum p.2 with
    | some n =>
        if row.getD p.1 .cnull = .cnull then acc
        else
          match cellNum (row.getD p.1 .cnull) with
          | some v => setChapter acc n v
          | none => acc
    | none => acc) []

def dataFileTooShortMsg : String := "File dữ liệu không có đủ nội dung."

def missingDataColumnsMsg : String :=
  "File dữ liệu phải chứa cột \x27Tên đề tài\x27 và \x27Họ tên HV\x27."

/-- The keyword-to-index search of readDataFileForReporting. -/
def findIndexKw (headers : List String) : List String → Option Nat
  | [] => none
  | kw :: rest =>
      match headers.findIdx? (fun h => containsStr h (normalizeString kw)) with
      | some i => some i
      | none => findIndexKw headers rest

/-- One record of the direct-read path from one data row. -/
def directRecord (headers : List String) (sIdx gIdx vIdx : Option Nat)
    (ti hi : Nat) (row : List Cell) : MergedData :=
  { tendetai := Cell.cs (jsOrEmptyStr (row.getD ti .cnull)),
    hotenhv := jsOrEmptyStr (row.getD hi .cnull),
    sohocvien :=
      match sIdx with
      | some si => jsParseInt (jsOrDefault (row.getD si .cnull) "0")
      | none => some 1,
    nguoihuongdan :=
      match gIdx with
      | some gi => Cell.cs (jsOrEmptyStr (row.getD gi .cnull))
      | none => Cell.cs "",
    tv :=
      match vIdx with
      | some vi =>
          if row.getD vi .cnull = .cnull then none else cellNum (row.getD vi .cnull)
      | none => none,
    chapters := directChapters headers row }

/-- readDataFileForReporting from services/fileProcessor.ts, applied to the
grid the tabular reader produced (blank rows already dropped). -/
def readDataFileForReporting (g : Grid) : Except String (List MergedData) :=
  if g.length < 2 then Except.error dataFileTooShortMsg
  else
    let headers := (g.getD 0 []).map cellNormalize
    let dataRows := g.drop 1
    match findIndexKw headers ["Tên đề tài", "tendetai"],
        findIndexKw headers ["Họ tên HV", "hotenhv"] with
    | some ti, some hi =>
        Except.ok ((dataRows.map (directRecord headers
            (findIndexKw headers ["Số học viên", "sohocvien"])
            (findIndexKw headers ["Người hướng dẫn", "nguoihuongdan"])
            (findIndexKw headers ["TV"]) ti hi)).filter
          (fun d => jsTruthy d.tendetai ∧ d.hotenhv ≠ ""))
    | _, _ => Except.error missingDataColumnsMsg

/-- Ascending insertion for chapter numbers. -/
def insertNat (x : Nat) : List Nat → List Nat
  | [] => [x]
  | y :: ys => if y ≤ x then y :: insertNat x ys else x :: y :: ys

/-- Ascending sort of chapter numbers (the c-key sort of the writer). -/
def sortNats (l : List Nat) : List Nat := l.foldl (fun acc x => insertNat x acc) []

/-- The five fixed columns of the rebuilt sheet, in the writer's order. -/
def fixedHeaders : List String :=
  ["Tên đề tài", "Người hướng dẫn", "Số học viên", "Họ tên HV", "TV"]

/-- Chapter number of an uppercase C-key column name. -/
def upperCKeyNum (k : String) : Option Nat :=
  if ("C".data).isPrefixOf k.data ∧ k.data.drop 1 ≠ [] ∧ (k.data.drop 1).all isDigitCh then
    some (digitsVal (k.data.drop 1))
  else none

/-- Keys of one record's sheet row: the five fixed columns then the upper
case c-keys in ascending chapter order. -/
def rowKeys (r : MergedData) : List String :=
  fixedHeaders ++ (sortNats (r.chapters.map (fun p => p.1))).map
    (fun n => "C" ++ natStr n)

/-- Header row of the rebuilt sheet: union of all row keys in
first-appearance order (json-to-sheet accumulates new keys at the end). -/
def sheetHeaders (rs : List MergedData) : List String :=
  dedupKeys ((rs.map rowKeys).flatten)

/-- The cell one record contributes under one column of the rebuilt sheet
(undefined values, such as an absent tv, produce no cell and read back as
null). -/
def cellForKey (r : MergedData) (k : String) : Cell :=
  if k = "Tên đề tài" then r.tendetai
  else if k = "Người hướng dẫn" then r.nguoihuongdan
  else if k = "Số học viên" then
    (match r.sohocvien with
     | some n => Cell.cn (JsNum.fin (n : ℚ))
     | none => Cell.cnull)
  else if k = "Họ tên HV" then Cell.cs r.hotenhv
  else if k = "TV" then
    (match r.tv with
     | some v => Cell.cn v
     | none => Cell.cnull)
  else
    match upperCKeyNum k with
    | some n =>
        (match r.chapters.lookup n with
         | some v => Cell.cn v
         | none => Cell.cnull)
    | none => Cell.cnull

/-- The rebuilt tabular output of generateMergedExcel: one header row of
string cells, then one row per record aligned to those headers. -/
def writeMergedSheet (rs : List MergedData) : Grid :=
  ((sheetHeaders rs).map Cell.cs) ::
    rs.map (fun r => (sheetHeaders rs).map (cellForKey r))

/-- Non-blank row test of readFileAsArray. -/
def rowNonBlank (row : List Cell) : Bool :=
  row.any (fun c => c ≠ .cnull ∧ jsTrim (cellStr c) ≠ "")

/-- readFileAsArray drops fully blank rows before anything else sees the
grid. -/
def dropBlankRows (g : Grid) : Grid := g.filter rowNonBlank

/-- Writing records and reading the file back through the direct-read path. -/
def roundTrip (rs : List MergedData) : Except String (List MergedData) :=
  readDataFileForReporting (dropBlankRows (writeMergedSheet rs))

lemma jsTruthy_cs_iff (s : String) : jsTruthy (Cell.cs s) = true ↔ s ≠ "" := by
  by_cases hs : s = "" <;> simp [jsTruthy, hs]

/-- C10: every record the direct-read path returns has a non-empty topic
title and non-empty student names; rows with blank cells there are silently
excluded, and blank rows never cause an error once the header requirements
hold. -/
theorem claim_C10_direct_read_filters_blanks :
    (∀ (g : Grid) (rs : List MergedData),
        readDataFileForReporting g = Except.ok rs →
        ∀ r ∈ rs, (∃ s, r.tendetai = Cell.cs s ∧ s ≠ "") ∧ r.hotenhv ≠ "")
    ∧ (∀ g : Grid,
        2 ≤ g.length →
        (findIndexKw ((g.getD 0 []).map cellNormalize)
          ["Tên đề tài", "tendetai"]).isSome = true →
        (findIndexKw ((g.getD 0 []).map cellNormalize)
          ["Họ tên HV", "hotenhv"]).isSome = true →
        ∃ rs, readDataFileForReporting g = Except.ok rs) := by
  constructor
  · intro g rs hok r hr
    rw [readDataFileForReporting] at hok
    by_cases hlen : g.length < 2
    · rw [if_pos hlen] at hok
      exact absurd hok (by simp)
    · rw [if_neg hlen] at hok
      dsimp only at hok
      cases ht : findIndexKw ((g.getD 0 []).map cellNormalize)
          ["Tên đề tài", "tendetai"] with
      | none =>
          rw [ht] at hok
          cases th : findIndexKw ((g.getD 0 []).map cellNormalize)
              ["Họ tên HV", "hotenhv"] <;> rw [th] at hok <;>
            exact absurd hok (by simp)
      | some ti =>
          rw [ht] at hok
          cases th : findIndexKw ((g.getD 0 []).map cellNormalize)
              ["Họ tên HV", "hotenhv"] with
          | none =>
              rw [th] at hok
              exact absurd hok (by simp)
          | some hi =>
              rw [th] at hok
              injection hok with hok'
              subst hok'
              obtain ⟨hmem, hpred⟩ := List.mem_filter.mp hr
              have hp := of_decide_eq_true hpred
              obtain ⟨row, _, hrow⟩ := List.mem_map.mp hmem
              refine ⟨⟨jsOrEmptyStr (row.getD ti .cnull), ?_, ?_⟩, hp.2⟩
              · rw [← hrow]; rfl
              · have hten : r.tendetai = Cell.cs (jsOrEmptyStr (row.getD ti .cnull)) := by
                  rw [← hrow]; rfl
                rw [hten] at hp
                exact (jsTruthy_cs_iff _).mp hp.1
  · intro g hlen ht hh
    rw [readDataFileForReporting, if_neg (by omega)]
    dsimp only
    obtain ⟨ti, hti⟩ := Option.isSome_iff_exists.mp ht
    obtain ⟨hi, hhi⟩ := Option.isSome_iff_exists.mp hh
    rw [hti, hhi]
    exact ⟨_, rfl⟩

def c10Ex : Grid :=
  [[Cell.cs "Tên đề tài", Cell.cs "Họ tên HV"],
   [Cell.cs "T", Cell.cs "A"], [Cell.cs "", Cell.cs "B"]]

/-- Concrete instantiation of C10: a data file whose second data row has a
blank topic title loses exactly that row, silently, and the surviving
record has non-empty fields. -/
theorem claim_C10_witness :
    readDataFileForReporting c10Ex = Except.ok
      [MergedData.mk "A" (Cell.cs "T") (some 1) (Cell.cs "") none []]
    ∧ (∀ r ∈ [MergedData.mk "A" (Cell.cs "T") (some 1) (Cell.cs "") none []],
        (∃ s, r.tendetai = Cell.cs s ∧ s ≠ "") ∧ r.hotenhv ≠ "")
    ∧ 2 ≤ c10Ex.length
    ∧ ∃ rs, readDataFileForReporting c10Ex = Except.ok rs :=
  ⟨by decide,
   claim_C10_direct_read_filters_blanks.1 c10Ex
     [MergedData.mk "A" (Cell.cs "T") (some 1) (Cell.cs "") none []] (by decide),
   by decide,
   claim_C10_direct_read_filters_blanks.2 c10Ex (by decide) (by decide) (by decide)⟩

lemma digChar_toNat {d : Nat} (h : d < 10) : (digChar d).toNat = 48 + d := by
  have hbd : ∀ e, e < 10 → (digChar e).toNat = 48 + e := by decide
  exact hbd d h

lemma natChars_digits (n : Nat) : ∀ c ∈ natChars n, isDigitCh c = true := by
  induction n using Nat.strong_induction_on with
  | _ n ih =>
      intro c hc
      rw [natChars] at hc
      by_cases h : n < 10
      · rw [if_pos h] at hc
        have hdig : ∀ e, e < 10 → isDigitCh (digChar e) = true := by decide
        rcases List.mem_singleton.mp hc with rfl
        exact hdig n h
      · rw [if_neg h] at hc
        rcases List.mem_append.mp hc with h1 | h1
        · exact ih (n / 10) (Nat.div_lt_self (by omega) (by omega)) c h1
        · have hdig : ∀ e, e < 10 → isDigitCh (digChar e) = true := by decide
          rcases List.mem_singleton.mp h1 with rfl
          exact hdig (n % 10) (Nat.mod_lt _ (by omega))

lemma natChars_ne_nil (n : Nat) : natChars n ≠ [] := by
  rw [natChars]
  by_cases h : n < 10
  · rw [if_pos h]; simp
  · rw [if_neg h]; simp

lemma digitsVal_append_one (l : List Char) (c : Char) :
    digitsVal (l ++ [c]) = digitsVal l * 10 + (c.toNat - 48) := by
  rw [digitsVal, List.foldl_append]
  rfl

lemma digitsVal_natChars (n : Nat) : digitsVal (natChars n) = n := by
  induction n using Nat.strong_induction_on with
  | _ n ih =>
      rw [natChars]
      by_cases h : n < 10
      · rw [if_pos h]
        have hd := digChar_toNat h
        simp [digitsVal, hd]
      · rw [if_neg h, digitsVal_append_one,
          ih (n / 10) (Nat.div_lt_self (by omega) (by omega)),
          digChar_toNat (Nat.mod_lt n (by omega))]
        omega

lemma natChars_inj {m n : Nat} (h : natChars m = natChars n) : m = n := by
  have := digitsVal_natChars m
  rw [h, digitsVal_natChars] at this
  omega

lemma digit_not_ws {c : Char} (h : isDigitCh c = true) : wsChar c = false := by
  have hb := of_decide_eq_true h
  have hne : ∀ d : Char, d.toNat < 48 → (c == d) = false := by
    intro d hd
    apply beq_eq_false_iff_ne.mpr
    intro he
    subst he
    omega
  rw [wsChar, hne ' ' (by decide), hne '\t' (by decide), hne '\n' (by decide),
    hne '\r' (by decide), hne '\x0b' (by decide), hne '\x0c' (by decide)]
  rfl

lemma digit_lowAlnum {c : Char} (h : isDigitCh c = true) : isLowAlnum c = true := by
  have hb := of_decide_eq_true h
  exact decide_eq_true (Or.inr hb)

lemma dropWhile_eq_self_of {p : Char → Bool} {l : List Char}
    (h : ∀ c ∈ l, p c = false) : l.dropWhile p = l := by
  cases l with
  | nil => rfl
  | cons c t =>
      rw [List.dropWhile_cons, h c (by simp)]
      simp

lemma jsTrim_eq_self {s : String} (h : ∀ c ∈ s.data, wsChar c = false) :
    jsTrim s = s := by
  rw [jsTrim, dropWhile_eq_self_of h,
    dropWhile_eq_self_of (fun c hc => h c (List.mem_reverse.mp hc)),
    List.reverse_reverse]

lemma natStr_not_empty (n : Nat) : natStr n ≠ "" := by
  intro hcon
  have : (natStr n).data = ("" : String).data := by rw [hcon]
  rw [natStr] at this
  exact natChars_ne_nil n (by simpa using this)

lemma jsTrim_natStr (n : Nat) : jsTrim (natStr n) = natStr n := by
  apply jsTrim_eq_self
  intro c hc
  rw [natStr] at hc
  exact digit_not_ws (natChars_digits n c (by simpa using hc))

lemma data_append (a b : String) : (a ++ b).data = a.data ++ b.data := by
  cases a
  cases b
  rfl

lemma normalizeChars_append (l1 l2 : List Char) :
    normalizeChars (l1 ++ l2) = normalizeChars l1 ++ normalizeChars l2 := by
  simp [normalizeChars, List.map_append, List.flatten_append, List.filter_append]

lemma str_ne_empty_of_data {s : String} (h : s.data ≠ []) : s ≠ "" := by
  intro hcon
  apply h
  rw [hcon]

lemma fracChars_zero : fracChars 64 0 = [] := by decide

lemma floor_intCastQ (n : Int) : Rat.floor ((n : ℚ)) = n := by
  rw [Rat.floor, if_pos (show ((n : ℚ)).den = 1 from rfl)]
  rfl

lemma ratToString_natIntCast (m : Nat) :
    ratToString ((((m : Nat) : Int) : ℚ)) = natStr m := by
  have hNN : ratToStringNN ((((m : Nat) : Int) : ℚ)) = natStr m := by
    rw [ratToStringNN]
    rw [floor_intCastQ, sub_self, fracChars_zero]
    rfl
  rw [ratToString, if_neg, hNN]
  rw [not_lt]
  push_cast
  exact Nat.cast_nonneg m

lemma sohocvienCell_nonblank (m : Nat) :
    Cell.cn (JsNum.fin (((m : Nat) : Int) : ℚ)) ≠ Cell.cnull
      ∧ jsTrim (cellStr (Cell.cn (JsNum.fin (((m : Nat) : Int) : ℚ)))) ≠ "" := by
  constructor
  · intro h; cases h
  · rw [show cellStr (Cell.cn (JsNum.fin (((m : Nat) : Int) : ℚ)))
        = ratToString (((m : Nat) : Int) : ℚ) from rfl,
      ratToString_natIntCast, jsTrim_natStr]
    exact natStr_not_empty m

lemma normalizeString_ckey (n : Nat) :
    normalizeString ("C" ++ natStr n) = "c" ++ natStr n := by
  have hd : ("C" ++ natStr n).data = 'C' :: natChars n := by
    rw [data_append, natStr]
    rfl
  have hne : ("C" ++ natStr n) ≠ "" := str_ne_empty_of_data (by rw [hd]; simp)
  rw [normalizeString, if_neg hne, hd]
  have hsplit : ('C' :: natChars n) = ['C'] ++ natChars n := rfl
  rw [hsplit, normalizeChars_append,
    normalizeChars_fixed (fun c hc => digit_lowAlnum (natChars_digits n c hc))]
  have hC : normalizeChars ['C'] = ['c'] := by decide
  rw [hC]
  have hdata : ("c" ++ natStr n).data = 'c' :: natChars n := by
    rw [data_append, natStr]
    rfl
  rw [show (['c'] ++ natChars n : List Char) = ("c" ++ natStr n).data from by rw [hdata]; rfl]

lemma ck_data (n : Nat) : ("C" ++ natStr n).data = 'C' :: natChars n := by
  rw [data_append]
  rfl

lemma ck_data_low (n : Nat) : ("c" ++ natStr n).data = 'c' :: natChars n := by
  rw [data_append]
  rfl

lemma ck_inj {m n : Nat} (h : "C" ++ natStr m = "C" ++ natStr n) : m = n := by
  have hd := congrArg String.data h
  rw [ck_data, ck_data] at hd
  injection hd with h1 h2
  exact natChars_inj h2

lemma ckey_not_in_fixed (n : Nat) : ("C" ++ natStr n) ∉ fixedHeaders := by
  intro h
  rw [fixedHeaders] at h
  simp only [List.mem_cons, List.not_mem_nil, or_false] at h
  rcases h with h | h | h | h | h <;>
    (have hd := congrArg String.data h;
     rw [ck_data] at hd;
     have hh := congrArg List.head? hd;
     rw [List.head?_cons] at hh;
     exact absurd hh (by decide))

lemma upperCKeyNum_ck (n : Nat) : upperCKeyNum ("C" ++ natStr n) = some n := by
  rw [upperCKeyNum, ck_data]
  have hdrop : ('C' :: natChars n).drop 1 = natChars n := rfl
  have hpre : ("C".data).isPrefixOf ('C' :: natChars n) = true := by
    simp [List.isPrefixOf_cons₂, List.isPrefixOf_nil_left]
  rw [if_pos ⟨hpre, by rw [hdrop]; exact natChars_ne_nil n,
    by rw [hdrop]; exact List.all_eq_true.mpr (natChars_digits n)⟩]
  rw [hdrop, digitsVal_natChars]

lemma directChapterNum_lck (n : Nat) : directChapterNum ("c" ++ natStr n) = some n := by
  rw [directChapterNum, ck_data_low]
  have hdrop : ('c' :: natChars n).drop 1 = natChars n := rfl
  have hpre : ("c".data).isPrefixOf ('c' :: natChars n) = true := by
    simp [List.isPrefixOf_cons₂, List.isPrefixOf_nil_left]
  rw [if_pos ⟨hpre, by rw [hdrop]; exact natChars_ne_nil n,
    by rw [hdrop]; exact List.all_eq_true.mpr (natChars_digits n)⟩]
  rw [hdrop, digitsVal_natChars]

lemma cellForKey_tendetai (r : MergedData) : cellForKey r "Tên đề tài" = r.tendetai := by
  rw [cellForKey, if_pos rfl]

lemma cellForKey_sohocvien (r : MergedData) :
    cellForKey r "Số học viên"
      = match r.sohocvien with
        | some n => Cell.cn (JsNum.fin (n : ℚ))
        | none => Cell.cnull := by
  rw [cellForKey, if_neg (by decide), if_neg (by decide), if_pos rfl]

lemma cellForKey_hotenhv (r : MergedData) :
    cellForKey r "Họ tên HV" = Cell.cs r.hotenhv := by
  rw [cellForKey, if_neg (by decide), if_neg (by decide), if_neg (by decide), if_pos rfl]

lemma cellForKey_tv (r : MergedData) :
    cellForKey r "TV"
      = match r.tv with
        | some v => Cell.cn v
        | none => Cell.cnull := by
  rw [cellForKey, if_neg (by decide), if_neg (by decide), if_neg (by decide),
    if_neg (by decide), if_pos rfl]

lemma cellForKey_ck (r : MergedData) (n : Nat) :
    cellForKey r ("C" ++ natStr n)
      = match r.chapters.lookup n with
        | some v => Cell.cn v
        | none => Cell.cnull := by
  rw [cellForKey,
    if_neg (fun h => ckey_not_in_fixed n (by rw [h]; decide)),
    if_neg (fun h => ckey_not_in_fixed n (by rw [h]; decide)),
    if_neg (fun h => ckey_not_in_fixed n (by rw [h]; decide)),
    if_neg (fun h => ckey_not_in_fixed n (by rw [h]; decide)),
    if_neg (fun h => ckey_not_in_fixed n (by rw [h]; decide)),
    upperCKeyNum_ck]

lemma cellForKey_ck_some {r : MergedData} {n : Nat} {v : JsNum}
    (h : r.chapters.lookup n = some v) :
    cellForKey r ("C" ++ natStr n) = Cell.cn v := by
  rw [cellForKey_ck, h]

lemma cellForKey_ck_none {r : MergedData} {n : Nat}
    (h : r.chapters.lookup n = none) :
    cellForKey r ("C" ++ natStr n) = Cell.cnull := by
  rw [cellForKey_ck, h]

lemma mem_insertNat (x : Nat) (l : List Nat) (y : Nat) :
    y ∈ insertNat x l ↔ y = x ∨ y ∈ l := by
  induction l with
  | nil => simp [insertNat]
  | cons a t ih =>
      rw [insertNat]
      by_cases h : a ≤ x
      · rw [if_pos h]
        simp only [List.mem_cons, ih]
        tauto
      · rw [if_neg h]
        simp only [List.mem_cons]

lemma mem_sortNats_aux (y : Nat) :
    ∀ (l acc : List Nat),
      (y ∈ l.foldl (fun acc x => insertNat x acc) acc ↔ y ∈ acc ∨ y ∈ l) := by
  intro l
  induction l with
  | nil => intro acc; simp
  | cons a t ih =>
      intro acc
      rw [List.foldl_cons, ih, mem_insertNat]
      simp only [List.mem_cons]
      tauto

lemma mem_sortNats (l : List Nat) (y : Nat) : y ∈ sortNats l ↔ y ∈ l := by
  rw [sortNats, mem_sortNats_aux]
  simp

/-- Invariant of the json-to-sheet key accumulation: starting from the five
fixed columns plus some C-keys, folding any further fixed or C-keys keeps
the shape, keeps the accumulated key numbers duplicate-free, and ends up
covering every C-key folded in. -/
lemma dedupInv :
    ∀ (ks : List String) (ms : List Nat),
      (∀ k ∈ ks, k ∈ fixedHeaders ∨ ∃ n, k = "C" ++ natStr n) →
      ms.Nodup →
      ∃ ms2 : List Nat,
        ks.foldl (fun acc k => if k ∈ acc then acc else acc ++ [k])
            (fixedHeaders ++ ms.map (fun n => "C" ++ natStr n))
          = fixedHeaders ++ ms2.map (fun n => "C" ++ natStr n)
        ∧ ms2.Nodup
        ∧ (∀ m ∈ ms, m ∈ ms2)
        ∧ (∀ n, ("C" ++ natStr n) ∈ ks → n ∈ ms2) := by
  intro ks
  induction ks with
  | nil =>
      intro ms _ hnd
      exact ⟨ms, rfl, hnd, fun m hm => hm, fun n hn => absurd hn (List.not_mem_nil _)⟩
  | cons k t ih =>
      intro ms hk hnd
      rw [List.foldl_cons]
      rcases hk k (List.mem_cons_self k t) with hfix | ⟨n, rfl⟩
      · have hin : k ∈ fixedHeaders ++ ms.map (fun n => "C" ++ natStr n) :=
          List.mem_append.mpr (Or.inl hfix)
        rw [if_pos hin]
        obtain ⟨ms2, h1, h2, h3, h4⟩ :=
          ih ms (fun x hx => hk x (List.mem_cons_of_mem k hx)) hnd
        refine ⟨ms2, h1, h2, h3, fun n hn => ?_⟩
        rcases List.mem_cons.mp hn with heq | hn2
        · exact absurd (heq ▸ hfix) (ckey_not_in_fixed n)
        · exact h4 n hn2
      · by_cases hin : ("C" ++ natStr n) ∈ fixedHeaders ++ ms.map (fun j => "C" ++ natStr j)
        · rw [if_pos hin]
          have hnm : n ∈ ms := by
            rcases List.mem_append.mp hin with h | h
            · exact absurd h (ckey_not_in_fixed n)
            · obtain ⟨j, hj, hje⟩ := List.mem_map.mp h
              exact (ck_inj hje) ▸ hj
          obtain ⟨ms2, h1, h2, h3, h4⟩ :=
            ih ms (fun x hx => hk x (List.mem_cons_of_mem _ hx)) hnd
          refine ⟨ms2, h1, h2, h3, fun n2 hn2 => ?_⟩
          rcases List.mem_cons.mp hn2 with heq | hh
          · exact (ck_inj heq).symm ▸ (h3 n hnm)
          · exact h4 n2 hh
        · rw [if_neg hin]
          have hfreshms : n ∉ ms := fun hc =>
            hin (List.mem_append.mpr (Or.inr (List.mem_map.mpr ⟨n, hc, rfl⟩)))
          have hnd2 : (ms ++ [n]).Nodup :=
            hnd.append (List.nodup_singleton n)
              (fun a ha hb => by
                rw [List.mem_singleton] at hb
                exact hfreshms (hb ▸ ha))
          have hacc : (fixedHeaders ++ ms.map (fun j => "C" ++ natStr j))
                ++ ["C" ++ natStr n]
              = fixedHeaders ++ (ms ++ [n]).map (fun j => "C" ++ natStr j) := by
            rw [List.map_append, List.append_assoc]
            rfl
          rw [hacc]
          obtain ⟨ms2, h1, h2, h3, h4⟩ :=
            ih (ms ++ [n]) (fun x hx => hk x (List.mem_cons_of_mem _ hx)) hnd2
          refine ⟨ms2, h1, h2,
            fun m hm => h3 m (List.mem_append.mpr (Or.inl hm)), fun n2 hn2 => ?_⟩
          rcases List.mem_cons.mp hn2 with heq | hh
          · exact (ck_inj heq).symm ▸
              (h3 n (List.mem_append.mpr (Or.inr (List.mem_singleton.mpr rfl))))
          · exact h4 n2 hh

/-- The header row of the rebuilt sheet of a nonempty record list is the
five fixed columns followed by duplicate-free C-keys that cover every
chapter key of every record. -/
lemma sheetHeaders_structure (rs : List MergedData) (hne : rs ≠ []) :
    ∃ ns : List Nat,
      sheetHeaders rs = fixedHeaders ++ ns.map (fun n => "C" ++ natStr n)
      ∧ ns.Nodup
      ∧ ∀ r ∈ rs, ∀ p ∈ r.chapters, p.1 ∈ ns := by
  obtain ⟨r0, rest, rfl⟩ := List.exists_cons_of_ne_nil hne
  rw [sheetHeaders, dedupKeys, List.map_cons, List.flatten_cons, rowKeys,
    List.append_assoc, List.foldl_append]
  rw [show List.foldl (fun acc k => if k ∈ acc then acc else acc ++ [k]) [] fixedHeaders
    = fixedHeaders ++ ([] : List Nat).map (fun n => "C" ++ natStr n) from by decide]
  have hkinds : ∀ k ∈ (sortNats (r0.chapters.map (fun p => p.1))).map
        (fun n => "C" ++ natStr n) ++ (rest.map rowKeys).flatten,
      k ∈ fixedHeaders ∨ ∃ n, k = "C" ++ natStr n := by
    intro k hkm
    rcases List.mem_append.mp hkm with h | h
    · obtain ⟨n, _, rfl⟩ := List.mem_map.mp h
      exact Or.inr ⟨n, rfl⟩
    · obtain ⟨l, hl, hkl⟩ := List.mem_flatten.mp h
      obtain ⟨r, _, rfl⟩ := List.mem_map.mp hl
      rw [rowKeys] at hkl
      rcases List.mem_append.mp hkl with h2 | h2
      · exact Or.inl h2
      · obtain ⟨n, _, rfl⟩ := List.mem_map.mp h2
        exact Or.inr ⟨n, rfl⟩
  obtain ⟨ns, h1, h2, _, h4⟩ := dedupInv _ [] hkinds List.nodup_nil
  refine ⟨ns, h1, h2, fun r hr p hp => ?_⟩
  rcases List.mem_cons.mp hr with rfl | hr2
  · refine h4 p.1 (List.mem_append.mpr (Or.inl ?_))
    exact List.mem_map.mpr ⟨p.1,
      (mem_sortNats _ _).mpr (List.mem_map.mpr ⟨p, hp, rfl⟩), rfl⟩
  · refine h4 p.1 (List.mem_append.mpr (Or.inr ?_))
    refine List.mem_flatten.mpr ⟨rowKeys r, List.mem_map.mpr ⟨r, hr2, rfl⟩, ?_⟩
    rw [rowKeys]
    refine List.mem_append.mpr (Or.inr ?_)
    exact List.mem_map.mpr ⟨p.1,
      (mem_sortNats _ _).mpr (List.mem_map.mpr ⟨p, hp, rfl⟩), rfl⟩

/-- Named loop body of the direct-read chapter sweep. -/
def dBody (row : List Cell) (acc : List (Nat × JsNum)) (p : Nat × String) :
    List (Nat × JsNum) :=
  match directChapterNum p.2 with
  | some n =>
      if row.getD p.1 .cnull = .cnull then acc
      else
        match cellNum (row.getD p.1 .cnull) with
        | some v => setChapter acc n v
        | none => acc
  | none => acc

lemma directChapters_eq_fold (headers : List String) (row : List Cell) :
    directChapters headers row = (withIdx headers).foldl (dBody row) [] := rfl

lemma dBody_none {row : List Cell} {acc : List (Nat × JsNum)} {p : Nat × String}
    (h : directChapterNum p.2 = none) : dBody row acc p = acc := by
  rw [dBody.eq_def, h]

lemma dBody_some {row : List Cell} {acc : List (Nat × JsNum)} {i : Nat} {s : String}
    {n : Nat} (h : directChapterNum s = some n) :
    dBody row acc (i, s)
      = if row.getD i Cell.cnull = Cell.cnull then acc
        else match cellNum (row.getD i Cell.cnull) with
          | some v => setChapter acc n v
          | none => acc := by
  rw [dBody.eq_def]
  rw [show directChapterNum (i, s).2 = some n from h]

/-- The direct-read chapter sweep over the lowercase C-key suffix of the
normalized headers appends, for each C-key column in order, the chapter
value the record stores under that key, skipping absent keys. -/
lemma directChapters_tail (r : MergedData) (row : List Cell) :
    ∀ (ns : List Nat) (k : Nat) (acc : List (Nat × JsNum)),
      ns.Nodup →
      (∀ p ∈ acc, p.1 ∉ ns) →
      (∀ j, j < ns.length →
        row[k + j]? = (ns[j]?).map (fun n => cellForKey r ("C" ++ natStr n))) →
      (withIdxFrom k (ns.map (fun n => "c" ++ natStr n))).foldl (dBody row) acc
        = acc ++ ns.filterMap (fun n => (r.chapters.lookup n).map (fun v => (n, v))) := by
  intro ns
  induction ns with
  | nil => intro k acc _ _ _; simp [withIdxFrom]
  | cons n t ih =>
      intro k acc hnd hfresh halign
      obtain ⟨hn, hndt⟩ := List.nodup_cons.mp hnd
      rw [List.map_cons, withIdxFrom, List.foldl_cons, List.filterMap_cons]
      have hget : row.getD k Cell.cnull = cellForKey r ("C" ++ natStr n) := by
        have h0 := halign 0 (by simp)
        rw [Nat.add_zero] at h0
        rw [List.getD_eq_getElem?_getD, h0]
        simp
      have halign2 : ∀ j, j < t.length →
          row[(k + 1) + j]? = (t[j]?).map (fun n => cellForKey r ("C" ++ natStr n)) := by
        intro j hj
        have h1 := halign (j + 1) (by simp only [List.length_cons]; omega)
        rw [show k + (j + 1) = (k + 1) + j from by omega] at h1
        rw [h1]
        simp
      cases hl : r.chapters.lookup n with
      | none =>
          have hstep : dBody row acc (k, "c" ++ natStr n) = acc := by
            rw [dBody_some (directChapterNum_lck n), hget, cellForKey_ck_none hl,
              if_pos rfl]
          rw [hstep,
            ih (k + 1) acc hndt
              (fun p hp hc => hfresh p hp (List.mem_cons_of_mem n hc)) halign2]
          simp
      | some v =>
          have hstep : dBody row acc (k, "c" ++ natStr n) = acc ++ [(n, v)] := by
            rw [dBody_some (directChapterNum_lck n), hget, cellForKey_ck_some hl,
              if_neg (fun hc => by cases hc)]
            show setChapter acc n v = acc ++ [(n, v)]
            rw [setChapter, if_neg]
            simp only [List.any_eq_true, decide_eq_true_eq, not_exists]
            rintro p hp
            exact hfresh p hp.1 (by rw [hp.2]; exact List.mem_cons_self n t)
          have hfresh2 : ∀ p ∈ acc ++ [(n, v)], p.1 ∉ t := by
            intro p hp hc
            rcases List.mem_append.mp hp with h | h
            · exact hfresh p h (List.mem_cons_of_mem n hc)
            · rw [List.mem_singleton] at h
              subst h
              exact hn hc
          rw [hstep, ih (k + 1) (acc ++ [(n, v)]) hndt hfresh2 halign2]
          simp

/-- Looking a key up in the association list built from duplicate-free keys
by per-key lookup. -/
lemma lookup_filterMap_nodup (l : List (Nat × JsNum)) :
    ∀ (ns : List Nat), ns.Nodup → ∀ m : Nat,
      (ns.filterMap (fun n => (l.lookup n).map (fun v => (n, v)))).lookup m
        = if m ∈ ns then l.lookup m else none := by
  intro ns
  induction ns with
  | nil => intro _ m; simp
  | cons n t ih =>
      intro hnd m
      obtain ⟨hn, hndt⟩ := List.nodup_cons.mp hnd
      rw [List.filterMap_cons]
      cases hf : l.lookup n with
      | none =>
          show (t.filterMap (fun n => (l.lookup n).map (fun v => (n, v)))).lookup m = _
          rw [ih hndt m]
          by_cases hm : m = n
          · subst hm
            rw [if_neg hn, if_pos (List.mem_cons_self m t), hf]
          · by_cases hmt : m ∈ t
            · rw [if_pos hmt, if_pos (List.mem_cons_of_mem n hmt)]
            · rw [if_neg hmt, if_neg (fun hc => by
                rcases List.mem_cons.mp hc with h | h
                · exact hm h
                · exact hmt h)]
      | some v =>
          show ((n, v) :: t.filterMap
              (fun n => (l.lookup n).map (fun v => (n, v)))).lookup m = _
          rw [List.lookup_cons]
          by_cases hm : m = n
          · subst hm
            rw [beq_self_eq_true]
            show some v = _
            rw [if_pos (List.mem_cons_self m t), hf]
          · rw [beq_eq_false_iff_ne.mpr hm]
            show (t.filterMap (fun n => (l.lookup n).map (fun v => (n, v)))).lookup m = _
            rw [ih hndt m]
            by_cases hmt : m ∈ t
            · rw [if_pos hmt, if_pos (List.mem_cons_of_mem n hmt)]
            · rw [if_neg hmt, if_neg (fun hc => by
                rcases List.mem_cons.mp hc with h | h
                · exact hm h
                · exact hmt h)]

lemma mem_of_lookup : ∀ {l : List (Nat × JsNum)} {m : Nat} {v : JsNum},
    l.lookup m = some v → (m, v) ∈ l := by
  intro l
  induction l with
  | nil => intro m v h; cases h
  | cons p t ih =>
      intro m v h
      cases p with
      | mk a b =>
          rw [List.lookup_cons] at h
          cases hbe : m == a with
          | true =>
              rw [hbe] at h
              have ha : m = a := eq_of_beq hbe
              have hv : b = v := by
                injection (show some b = some v from h)
              rw [ha, ← hv]
              exact List.mem_cons_self _ _
          | false =>
              rw [hbe] at h
              exact List.mem_cons_of_mem _ (ih (show t.lookup m = some v from h))

/-- Reading the written C-key columns back reproduces every chapter lookup. -/
lemma chapters_read (r : MergedData) (ns : List Nat) (hnd : ns.Nodup)
    (hcov : ∀ p ∈ r.chapters, p.1 ∈ ns) (m : Nat) :
    (ns.filterMap (fun n => (r.chapters.lookup n).map (fun v => (n, v)))).lookup m
      = r.chapters.lookup m := by
  rw [lookup_filterMap_nodup r.chapters ns hnd m]
  by_cases hm : m ∈ ns
  · rw [if_pos hm]
  · rw [if_neg hm]
    cases hl : r.chapters.lookup m with
    | none => rfl
    | some v => exact absurd (hcov _ (mem_of_lookup hl)) hm

/-- The chapter map the direct-read path recovers from a rebuilt sheet row
agrees with the record's chapter map on every lookup, provided the C-key
columns are duplicate-free and cover the record's chapter keys. -/
lemma directChapters_record (r : MergedData) (ns : List Nat)
    (hnd : ns.Nodup) (hcov : ∀ p ∈ r.chapters, p.1 ∈ ns) (m : Nat) :
    (directChapters
        ((fixedHeaders ++ ns.map (fun n => "C" ++ natStr n)).map normalizeString)
        ((fixedHeaders ++ ns.map (fun n => "C" ++ natStr n)).map (cellForKey r))).lookup m
      = r.chapters.lookup m := by
  have hhead : (fixedHeaders ++ ns.map (fun n => "C" ++ natStr n)).map normalizeString
      = "tendetai" :: "nguoihuongdan" :: "sohocvien" :: "hotenhv" :: "tv"
        :: ns.map (fun n => "c" ++ natStr n) := by
    have h2 : (ns.map (fun n => "C" ++ natStr n)).map normalizeString
        = ns.map (fun n => "c" ++ natStr n) := by
      rw [List.map_map]
      exact List.map_congr_left (fun n _ => normalizeString_ckey n)
    rw [List.map_append, h2,
      show fixedHeaders.map normalizeString
        = ["tendetai", "nguoihuongdan", "sohocvien", "hotenhv", "tv"] from by decide]
    rfl
  have halign : ∀ j, j < ns.length →
      ((fixedHeaders ++ ns.map (fun n => "C" ++ natStr n)).map (cellForKey r))[5 + j]?
        = (ns[j]?).map (fun n => cellForKey r ("C" ++ natStr n)) := by
    intro j hj
    rw [List.getElem?_map,
      List.getElem?_append_right (show fixedHeaders.length ≤ 5 + j from by
        rw [show fixedHeaders.length = 5 from rfl]; omega),
      show 5 + j - fixedHeaders.length = j from by
        rw [show fixedHeaders.length = 5 from rfl]; omega,
      List.getElem?_map, Option.map_map]
    rfl
  rw [directChapters_eq_fold, hhead]
  rw [show withIdx ("tendetai" :: "nguoihuongdan" :: "sohocvien" :: "hotenhv" :: "tv"
        :: ns.map (fun n => "c" ++ natStr n))
      = (0, "tendetai") :: (1, "nguoihuongdan") :: (2, "sohocvien") :: (3, "hotenhv")
        :: (4, "tv") :: withIdxFrom 5 (ns.map (fun n => "c" ++ natStr n)) from rfl]
  rw [List.foldl_cons, dBody_none (by decide), List.foldl_cons, dBody_none (by decide),
    List.foldl_cons, dBody_none (by decide), List.foldl_cons, dBody_none (by decide),
    List.foldl_cons, dBody_none (by decide)]
  rw [directChapters_tail r _ ns 5 [] hnd (by simp) halign, List.nil_append]
  exact chapters_read r ns hnd hcov m

/-- Every record the merger returns carries the group size, a natural
number, as its sohocvien value. -/
lemma merger_ok_shape {dfMain : List MainAgg} {dfSupp : Grid} {rs : List MergedData}
    (h : mergeMainAndRatios dfMain dfSupp = Except.ok rs) :
    ∀ r ∈ rs, ∃ m : Nat, r.sohocvien = some ((m : Nat) : Int) := by
  rw [mergeMainAndRatios] at h
  by_cases hcond :
      (ratioColumnsOf ((dfSupp.getD (detectHeaderRow dfSupp ["TV", "Tỉ lệ"]) []).map
          (fun h => jsTrim (jsOrEmptyStr h)))).isEmpty = true
        ∧ tvColumnIndex ((dfSupp.getD (detectHeaderRow dfSupp ["TV", "Tỉ lệ"]) []).map
            (fun h => jsTrim (jsOrEmptyStr h))) = none
  · rw [if_pos hcond] at h
    cases h
  · rw [if_neg hcond] at h
    injection h with h2
    intro r hr
    rw [← h2] at hr
    obtain ⟨p, _, rfl⟩ := List.mem_map.mp hr
    exact ⟨p.2.sohocvien, rfl⟩

/-- Normalizing the rebuilt sheet's headers yields the five fixed
normalized names followed by the lowercase C-keys. -/
lemma headersNorm (ns : List Nat) :
    (fixedHeaders ++ ns.map (fun n => "C" ++ natStr n)).map normalizeString
      = "tendetai" :: "nguoihuongdan" :: "sohocvien" :: "hotenhv" :: "tv"
        :: ns.map (fun n => "c" ++ natStr n) := by
  have h2 : (ns.map (fun n => "C" ++ natStr n)).map normalizeString
      = ns.map (fun n => "c" ++ natStr n) := by
    rw [List.map_map]
    exact List.map_congr_left (fun n _ => normalizeString_ckey n)
  rw [List.map_append, h2,
    show fixedHeaders.map normalizeString
      = ["tendetai", "nguoihuongdan", "sohocvien", "hotenhv", "tv"] from by decide]
  rfl

lemma findKw_ti (ns : List Nat) :
    findIndexKw ((fixedHeaders ++ ns.map (fun n => "C" ++ natStr n)).map normalizeString)
      ["Tên đề tài", "tendetai"] = some 0 := by
  rw [headersNorm, findIndexKw, List.findIdx?_cons, if_pos (by decide)]

lemma findKw_hi (ns : List Nat) :
    findIndexKw ((fixedHeaders ++ ns.map (fun n => "C" ++ natStr n)).map normalizeString)
      ["Họ tên HV", "hotenhv"] = some 3 := by
  rw [headersNorm, findIndexKw, List.findIdx?_cons, if_neg (by decide),
    List.findIdx?_cons, if_neg (by decide), List.findIdx?_cons, if_neg (by decide),
    List.findIdx?_cons, if_pos (by decide)]

lemma findKw_vi (ns : List Nat) :
    findIndexKw ((fixedHeaders ++ ns.map (fun n => "C" ++ natStr n)).map normalizeString)
      ["TV"] = some 4 := by
  rw [headersNorm, findIndexKw, List.findIdx?_cons, if_neg (by decide),
    List.findIdx?_cons, if_neg (by decide), List.findIdx?_cons, if_neg (by decide),
    List.findIdx?_cons, if_neg (by decide), List.findIdx?_cons, if_pos (by decide)]

/-- Reading one rebuilt sheet row back through the direct-read path
reproduces the record's topic title, student names, tv and every chapter
lookup, for any resolution of the optional student-count and guide
columns. -/
lemma directRecord_fields (r : MergedData) (ns : List Nat) (sIdx gIdx : Option Nat)
    (hnd : ns.Nodup) (hcov : ∀ p ∈ r.chapters, p.1 ∈ ns)
    (hten : ∃ s, r.tendetai = Cell.cs s ∧ s ≠ "") (hhv : r.hotenhv ≠ "") :
    (directRecord
          ((fixedHeaders ++ ns.map (fun n => "C" ++ natStr n)).map normalizeString)
          sIdx gIdx (some 4) 0 3
          ((fixedHeaders ++ ns.map (fun n => "C" ++ natStr n)).map (cellForKey r))).tendetai
        = r.tendetai
      ∧ (directRecord
          ((fixedHeaders ++ ns.map (fun n => "C" ++ natStr n)).map normalizeString)
          sIdx gIdx (some 4) 0 3
          ((fixedHeaders ++ ns.map (fun n => "C" ++ natStr n)).map (cellForKey r))).hotenhv
        = r.hotenhv
      ∧ (directRecord
          ((fixedHeaders ++ ns.map (fun n => "C" ++ natStr n)).map normalizeString)
          sIdx gIdx (some 4) 0 3
          ((fixedHeaders ++ ns.map (fun n => "C" ++ natStr n)).map (cellForKey r))).tv
        = r.tv
      ∧ ∀ m, (directRecord
          ((fixedHeaders ++ ns.map (fun n => "C" ++ natStr n)).map normalizeString)
          sIdx gIdx (some 4) 0 3
          ((fixedHeaders ++ ns.map (fun n => "C" ++ natStr n)).map
            (cellForKey r))).chapters.lookup m
        = r.chapters.lookup m := by
  obtain ⟨s, hs, hsne⟩ := hten
  refine ⟨?_, ?_, ?_, ?_⟩
  · have h1 : (directRecord
          ((fixedHeaders ++ ns.map (fun n => "C" ++ natStr n)).map normalizeString)
          sIdx gIdx (some 4) 0 3
          ((fixedHeaders ++ ns.map (fun n => "C" ++ natStr n)).map
            (cellForKey r))).tendetai
        = Cell.cs (jsOrEmptyStr (cellForKey r "Tên đề tài")) := rfl
    rw [h1, cellForKey_tendetai, hs, jsOrEmptyStr, if_pos ((jsTruthy_cs_iff s).mpr hsne)]
    rfl
  · have h1 : (directRecord
          ((fixedHeaders ++ ns.map (fun n => "C" ++ natStr n)).map normalizeString)
          sIdx gIdx (some 4) 0 3
          ((fixedHeaders ++ ns.map (fun n => "C" ++ natStr n)).map
            (cellForKey r))).hotenhv
        = jsOrEmptyStr (cellForKey r "Họ tên HV") := rfl
    rw [h1, cellForKey_hotenhv, jsOrEmptyStr, if_pos ((jsTruthy_cs_iff _).mpr hhv)]
    rfl
  · have h1 : (directRecord
          ((fixedHeaders ++ ns.map (fun n => "C" ++ natStr n)).map normalizeString)
          sIdx gIdx (some 4) 0 3
          ((fixedHeaders ++ ns.map (fun n => "C" ++ natStr n)).map
            (cellForKey r))).tv
        = if cellForKey r "TV" = Cell.cnull then none else cellNum (cellForKey r "TV") :=
      rfl
    rw [h1, cellForKey_tv]
    cases r.tv with
    | none => rw [if_pos rfl]
    | some v =>
        rw [if_neg (fun hc => by cases hc)]
        rfl
  · intro m
    exact directChapters_record r ns hnd hcov m

/-- C5 (amended): for every nonempty record list the ratio merger
produces whose records carry a non-empty string topic title and non-empty
student names, writing the records to the rebuilt tabular output and
re-reading that output through the direct-read path (header-name based)
succeeds and reproduces the tendetai, hotenhv, tv and every c-chapter
lookup of every record, in order. -/
theorem claim_C5_round_trip_amended :
    ∀ (dfMain : List MainAgg) (dfSupp : Grid) (rs : List MergedData),
      mergeMainAndRatios dfMain dfSupp = Except.ok rs →
      rs ≠ [] →
      (∀ r ∈ rs, (∃ s, r.tendetai = Cell.cs s ∧ s ≠ "") ∧ r.hotenhv ≠ "") →
      ∃ rs2, roundTrip rs = Except.ok rs2
        ∧ rs2.length = rs.length
        ∧ ∀ (i : Nat) (r r2 : MergedData), rs[i]? = some r → rs2[i]? = some r2 →
            r2.tendetai = r.tendetai ∧ r2.hotenhv = r.hotenhv ∧ r2.tv = r.tv
            ∧ ∀ m, r2.chapters.lookup m = r.chapters.lookup m := by
  intro dfMain dfSupp rs hok hne hfields
  have hsv := merger_ok_shape hok
  obtain ⟨ns, hH, hnd, hcov⟩ := sheetHeaders_structure rs hne
  have hsheet : writeMergedSheet rs
      = ((fixedHeaders ++ ns.map (fun n => "C" ++ natStr n)).map Cell.cs)
        :: rs.map (fun r => (fixedHeaders ++ ns.map (fun n => "C" ++ natStr n)).map
            (cellForKey r)) := by
    rw [writeMergedSheet, hH]
  have hnonblank : ∀ row ∈ writeMergedSheet rs, rowNonBlank row = true := by
    intro row hrow
    rw [hsheet] at hrow
    rcases List.mem_cons.mp hrow with rfl | hrow2
    · rw [rowNonBlank]
      refine List.any_eq_true.mpr ⟨Cell.cs "Tên đề tài",
        List.mem_map.mpr ⟨"Tên đề tài", List.mem_append.mpr (Or.inl (by decide)), rfl⟩,
        by decide⟩
    · obtain ⟨r, hr, rfl⟩ := List.mem_map.mp hrow2
      obtain ⟨m, hm⟩ := hsv r hr
      rw [rowNonBlank]
      refine List.any_eq_true.mpr ⟨Cell.cn (JsNum.fin (((m : Nat) : Int) : ℚ)),
        List.mem_map.mpr ⟨"Số học viên", List.mem_append.mpr (Or.inl (by decide)), ?_⟩,
        ?_⟩
      · rw [cellForKey_sohocvien, hm]
      · rw [decide_eq_true_eq]
        exact sohocvienCell_nonblank m
  have hdrop : dropBlankRows (writeMergedSheet rs) = writeMergedSheet rs := by
    rw [dropBlankRows]
    exact List.filter_eq_self.mpr hnonblank
  have hread : roundTrip rs = Except.ok (rs.map (fun r =>
      directRecord
        ((fixedHeaders ++ ns.map (fun n => "C" ++ natStr n)).map normalizeString)
        (findIndexKw
          ((fixedHeaders ++ ns.map (fun n => "C" ++ natStr n)).map normalizeString)
          ["Số học viên", "sohocvien"])
        (findIndexKw
          ((fixedHeaders ++ ns.map (fun n => "C" ++ natStr n)).map normalizeString)
          ["Người hướng dẫn", "nguoihuongdan"])
        (some 4) 0 3
        ((fixedHeaders ++ ns.map (fun n => "C" ++ natStr n)).map (cellForKey r)))) := by
    rw [roundTrip, hdrop, hsheet, readDataFileForReporting,
      if_neg (by
        simp only [List.length_cons, List.length_map]
        have := List.length_pos.mpr hne
        omega)]
    dsimp only
    rw [show (((fixedHeaders ++ ns.map (fun n => "C" ++ natStr n)).map Cell.cs
          :: rs.map (fun r => (fixedHeaders ++ ns.map (fun n => "C" ++ natStr n)).map
            (cellForKey r))).getD 0 []).map cellNormalize
        = (fixedHeaders ++ ns.map (fun n => "C" ++ natStr n)).map normalizeString from by
      rw [show ((fixedHeaders ++ ns.map (fun n => "C" ++ natStr n)).map Cell.cs
          :: rs.map (fun r => (fixedHeaders ++ ns.map (fun n => "C" ++ natStr n)).map
            (cellForKey r))).getD 0 []
        = (fixedHeaders ++ ns.map (fun n => "C" ++ natStr n)).map Cell.cs from rfl,
        List.map_map]
      exact rfl]
    rw [findKw_ti ns, findKw_hi ns, findKw_vi ns]
    dsimp only
    rw [show ((fixedHeaders ++ ns.map (fun n => "C" ++ natStr n)).map Cell.cs
        :: rs.map (fun r => (fixedHeaders ++ ns.map (fun n => "C" ++ natStr n)).map
          (cellForKey r))).drop 1
      = rs.map (fun r => (fixedHeaders ++ ns.map (fun n => "C" ++ natStr n)).map
          (cellForKey r)) from rfl]
    have hpass : ∀ d ∈ (rs.map (fun r =>
          (fixedHeaders ++ ns.map (fun n => "C" ++ natStr n)).map (cellForKey r))).map
        (directRecord
          ((fixedHeaders ++ ns.map (fun n => "C" ++ natStr n)).map normalizeString)
          (findIndexKw
            ((fixedHeaders ++ ns.map (fun n => "C" ++ natStr n)).map normalizeString)
            ["Số học viên", "sohocvien"])
          (findIndexKw
            ((fixedHeaders ++ ns.map (fun n => "C" ++ natStr n)).map normalizeString)
            ["Người hướng dẫn", "nguoihuongdan"])
          (some 4) 0 3),
        decide (jsTruthy d.tendetai = true ∧ d.hotenhv ≠ "") = true := by
      intro d hd
      obtain ⟨row, hrowm, rfl⟩ := List.mem_map.mp hd
      obtain ⟨r, hr, rfl⟩ := List.mem_map.mp hrowm
      rw [decide_eq_true_eq]
      obtain ⟨htd, hhv2, _, _⟩ := directRecord_fields r ns
        (findIndexKw
          ((fixedHeaders ++ ns.map (fun n => "C" ++ natStr n)).map normalizeString)
          ["Số học viên", "sohocvien"])
        (findIndexKw
          ((fixedHeaders ++ ns.map (fun n => "C" ++ natStr n)).map normalizeString)
          ["Người hướng dẫn", "nguoihuongdan"])
        hnd (hcov r hr) (hfields r hr).1 (hfields r hr).2
      constructor
      · rw [htd]
        obtain ⟨s, hs, hsne⟩ := (hfields r hr).1
        rw [hs]
        exact (jsTruthy_cs_iff s).mpr hsne
      · rw [hhv2]
        exact (hfields r hr).2
    rw [List.filter_eq_self.mpr hpass, List.map_map]
    exact rfl
  refine ⟨_, hread, by rw [List.length_map], ?_⟩
  intro i r r2 hri hr2
  rw [List.getElem?_map, hri, Option.map_some'] at hr2
  injection hr2 with hfr
  rw [← hfr]
  obtain ⟨htd, hhv2, htv, hch⟩ := directRecord_fields r ns
    (findIndexKw
      ((fixedHeaders ++ ns.map (fun n => "C" ++ natStr n)).map normalizeString)
      ["Số học viên", "sohocvien"])
    (findIndexKw
      ((fixedHeaders ++ ns.map (fun n => "C" ++ natStr n)).map normalizeString)
      ["Người hướng dẫn", "nguoihuongdan"])
    hnd (hcov r (List.getElem?_mem hri)) (hfields r (List.getElem?_mem hri)).1
    (hfields r (List.getElem?_mem hri)).2
  exact ⟨htd, hhv2, htv, hch⟩

/-- C5 counterexample to the unrestricted round-trip claim: a merger output
record with empty student names (its group held only blank-named rows) is
silently dropped by the direct-read filter, so the round trip returns an
empty list instead of reproducing the record; and a merger run over zero
topics yields an empty record list whose rebuilt sheet, after blank-row
filtering, is too short to re-read at all. -/
theorem claim_C5_counterexample :
    mergeMainAndRatios [MainAgg.mk (Cell.cs "T") "" 1 (Cell.cs "")]
        [[Cell.cs "TV"], [Cell.cs "10"]]
      = Except.ok [MergedData.mk "" (Cell.cs "T") (some 1) (Cell.cs "")
          (some (JsNum.fin 10)) []]
    ∧ roundTrip [MergedData.mk "" (Cell.cs "T") (some 1) (Cell.cs "")
          (some (JsNum.fin 10)) []]
      = Except.ok []
    ∧ mergeMainAndRatios [] [[Cell.cs "TV"], [Cell.cs "10"]] = Except.ok []
    ∧ roundTrip [] = Except.error dataFileTooShortMsg := by decide

/-- Concrete instantiation of the amended C5 theorem on the three-topic
merger example: the round trip through the rebuilt sheet succeeds and
reproduces every tendetai, hotenhv, tv and chapter lookup. -/
theorem claim_C5_round_trip_amended_witness :
    mergeMainAndRatios c2ExMain c2ExSupp = Except.ok c2ExOut
    ∧ c2ExOut ≠ []
    ∧ (∀ r ∈ c2ExOut, (∃ s, r.tendetai = Cell.cs s ∧ s ≠ "") ∧ r.hotenhv ≠ "")
    ∧ ∃ rs2, roundTrip c2ExOut = Except.ok rs2
        ∧ rs2.length = c2ExOut.length
        ∧ ∀ (i : Nat) (r r2 : MergedData), c2ExOut[i]? = some r → rs2[i]? = some r2 →
            r2.tendetai = r.tendetai ∧ r2.hotenhv = r.hotenhv ∧ r2.tv = r.tv
            ∧ ∀ m, r2.chapters.lookup m = r.chapters.lookup m :=
  ⟨by decide, by decide,
   by
     intro r hr
     simp only [c2ExOut, List.mem_cons, List.not_mem_nil, or_false] at hr
     rcases hr with rfl | rfl | rfl
     · exact ⟨⟨"T1", rfl, by decide⟩, by decide⟩
     · exact ⟨⟨"T2", rfl, by decide⟩, by decide⟩
     · exact ⟨⟨"T3", rfl, by decide⟩, by decide⟩,
   claim_C5_round_trip_amended c2ExMain c2ExSupp c2ExOut (by decide) (by decide)
     (by
       intro r hr
       simp only [c2ExOut, List.mem_cons, List.not_mem_nil, or_false] at hr
       rcases hr with rfl | rfl | rfl
       · exact ⟨⟨"T1", rfl, by decide⟩, by decide⟩
       · exact ⟨⟨"T2", rfl, by decide⟩, by decide⟩
       · exact ⟨⟨"T3", rfl, by decide⟩, by decide⟩)⟩

end BaoCao
